import Mathlib

/-!
# Car-ownership chaincode (`chaincode/cars/go/cars.go`)

A shallow embedding of the `SmartContract` operations of `cars.go` and of the
part of the chaincode stub they call, followed by theorems about them.

Conventions of the embedding

* Amounts (`Owner.Money`, `Car.Price`, `Damage.Price`) are `float64` in the
  source.  They are modelled by binary64 values: `Amount` is the set of finite
  ones, `float64` adds the two infinities and NaN, and `+`, `-`, `≤`, `<` on
  `float64` are the IEEE 754 operations with rounding to nearest, ties to even.
  The two zeros are one value.  A record that is stored holds finite amounts,
  because JSON has no other numbers; an amount computed by the contract may be
  infinite, and `json.Marshal` then fails.
* A stored byte string is modelled by `Value`: the JSON document produced by
  `json.Marshal` for a `Car`, the one produced for an `Owner`, or the
  one-byte index marker `[]byte{0x00}`.  These are the only values the
  contract ever writes.  The `nil` byte string `json.Marshal` returns beside an
  error is `none`.
* A Go function returning `error` returns `Option Error` (`none` is `nil`);
  one returning `(T, error)` with a `nil` first component beside every error
  returns `Except Error T`; `CarExists` and `OwnerExists`, which return a
  `bool` beside the error, return the pair.
* An invocation runs in a transaction context `Ctx`: reads see the committed
  ledger, writes are collected, and `after` gives the world state that results
  from applying them.  Reads and writes may fail, key by key.
-/

namespace Cars

/-! ## `float64` -/

/-- Number of binary digits of `n`.  `fuel` bounds the recursion; `n` always
suffices.  Digits are counted 64 at a time while `n` has more than 64. -/
def bitLength : Nat → Nat → Nat
  | 0, _ => 0
  | fuel + 1, n =>
    if n = 0 then 0
    else if n < 2 ^ 64 then bitLength fuel (n / 2) + 1
    else bitLength fuel (n / 2 ^ 64) + 64

/-- The pair `(m, e)` with `m * 2^e` unchanged and `m` odd, or `(0, 0)` for zero.
`fuel` bounds the number of factors of two removed. -/
def normalize : Nat → Int → Int → Int × Int
  | 0, m, e => (m, e)
  | fuel + 1, m, e =>
    if m = 0 then (0, 0)
    else if m % 2 = 0 then normalize fuel (m / 2) (e + 1)
    else (m, e)

/-- Whether `m * 2^e`, with `m` odd or `m = e = 0`, is a finite binary64 value:
at most 53 significant digits, a multiple of the least subnormal `2^-1074`,
and below `2^1024`. -/
def representable (m e : Int) : Bool :=
  (decide (m = 0) && decide (e = 0)) ||
    (decide (m % 2 = 1) && decide (m.natAbs < 2 ^ 53) && decide (-1074 ≤ e) &&
      decide ((bitLength m.natAbs m.natAbs : Int) + e ≤ 1024))

/-- A finite `float64`: the value `m * 2^e`, with `m` odd or `m = e = 0`. -/
structure Amount where
  m : Int
  e : Int
  h : representable m e = true
deriving DecidableEq

/-- The Go type `float64`: the finite values, the two infinities and NaN. -/
inductive float64 where
  | finite (x : Amount)
  | inf (negative : Bool)
  | nan
deriving DecidableEq

instance : Coe Amount float64 := ⟨float64.finite⟩

/-- The magnitude `n * 2^e` rounded to 53 significant digits and to a multiple of
`2^-1074`, to nearest with ties to even: the rounded magnitude as `(q, e')`. -/
def roundNearestEven (n : Nat) (e : Int) : Nat × Int :=
  let s : Int := max ((bitLength n n : Int) - 53) (-1074 - e)
  if s ≤ 0 then (n, e)
  else
    let k := s.toNat
    let q := n / 2 ^ k
    let r := n % 2 ^ k
    let half := 2 ^ (k - 1)
    if r > half ∨ (r = half ∧ q % 2 = 1) then (q + 1, e + s) else (q, e + s)

/-- The `float64` nearest to the exact value `m * 2^e`; an infinity when the
rounded magnitude is `2^1024` or more. -/
def float64.round (m e : Int) : float64 :=
  let r := roundNearestEven m.natAbs e
  let c := normalize (r.1 + 1) (if m < 0 then -(r.1 : Int) else (r.1 : Int)) r.2
  if h : representable c.1 c.2 = true then .finite ⟨c.1, c.2, h⟩ else .inf (decide (m < 0))

/-- The operator `+` of `float64`. -/
def float64.add : float64 → float64 → float64
  | .nan, _ => .nan
  | _, .nan => .nan
  | .inf s, .inf t => if s = t then .inf s else .nan
  | .inf s, .finite _ => .inf s
  | .finite _, .inf t => .inf t
  | .finite x, .finite y =>
    float64.round (x.m * 2 ^ (x.e - min x.e y.e).toNat + y.m * 2 ^ (y.e - min x.e y.e).toNat)
      (min x.e y.e)

/-- The operator `-` of `float64`. -/
def float64.sub : float64 → float64 → float64
  | .nan, _ => .nan
  | _, .nan => .nan
  | .inf s, .inf t => if s = t then .nan else .inf s
  | .inf s, .finite _ => .inf s
  | .finite _, .inf t => .inf (!t)
  | .finite x, .finite y =>
    float64.round (x.m * 2 ^ (x.e - min x.e y.e).toNat - y.m * 2 ^ (y.e - min x.e y.e).toNat)
      (min x.e y.e)

/-- The operator `<=` of `float64`; false when an operand is NaN. -/
def float64.le : float64 → float64 → Bool
  | .nan, _ => false
  | _, .nan => false
  | .inf s, .inf t => s || !t
  | .inf s, .finite _ => s
  | .finite _, .inf t => !t
  | .finite x, .finite y =>
    decide (x.m * 2 ^ (x.e - min x.e y.e).toNat ≤ y.m * 2 ^ (y.e - min x.e y.e).toNat)

/-- The operator `<` of `float64`; false when an operand is NaN. -/
def float64.lt : float64 → float64 → Bool
  | .nan, _ => false
  | _, .nan => false
  | .inf s, .inf t => s && !t
  | .inf s, .finite _ => s
  | .finite _, .inf t => !t
  | .finite x, .finite y =>
    decide (x.m * 2 ^ (x.e - min x.e y.e).toNat < y.m * 2 ^ (y.e - min x.e y.e).toNat)

instance : Add float64 := ⟨float64.add⟩

instance : Sub float64 := ⟨float64.sub⟩

instance : LE float64 := ⟨fun a b => float64.le a b = true⟩

instance : LT float64 := ⟨fun a b => float64.lt a b = true⟩

instance (a b : float64) : Decidable (a ≤ b) := inferInstanceAs (Decidable (float64.le a b = true))

instance (a b : float64) : Decidable (a < b) := inferInstanceAs (Decidable (float64.lt a b = true))

/-- A decimal literal without fraction, as Go converts it to `float64`. -/
instance (n : Nat) : OfNat float64 n := ⟨float64.round n 0⟩

/-- The amount zero. -/
def Amount.zero : Amount := ⟨0, 0, rfl⟩

/-- The finite value of a `float64`, zero for an infinity or NaN. -/
def float64.toAmount : float64 → Amount
  | .finite x => x
  | _ => Amount.zero

/-- A decimal literal without fraction in a composite literal of the source. -/
instance (n : Nat) : OfNat Amount n := ⟨(float64.round n 0).toAmount⟩

/-! ## Data model (`cars.go`, lines 20-41) -/

abbrev Key := String

abbrev Error := String

structure Owner where
  Id : Int
  Name : String
  Surname : String
  Email : String
  Money : Amount
deriving DecidableEq

structure Damage where
  Description : String
  Price : Amount
deriving DecidableEq

structure Car where
  Id : Int
  Make : String
  Model : String
  Color : String
  Owner : String
  Damages : List Damage
  Price : Amount
deriving DecidableEq

/-- Stored byte strings: `json.Marshal` of a `Car`, `json.Marshal` of an
`Owner`, and the index marker `[]byte{0x00}`. -/
inductive Value where
  | car (c : Car)
  | owner (o : Owner)
  | marker
deriving DecidableEq

/-- The zero value of the Go struct `Car` (`new(Car)`, `var car Car`). -/
def zeroCar : Car := ⟨0, "", "", "", "", [], 0⟩

/-- The zero value of the Go struct `Owner` (`new(Owner)`). -/
def zeroOwner : Owner := ⟨0, "", "", "", 0⟩

/-- The call `json.Unmarshal(bytes, car)` on a zero `Car`: the struct afterwards and the
error.  A `Car` document decodes to itself.  An `Owner` document is a JSON
object whose only member name shared with `Car` is `"id"`; the other
members are ignored and the other fields keep their zero value.  The marker
byte is not JSON: the struct is left untouched and an error is returned. -/
def unmarshalCar : Value → Car × Option Error
  | .car c => (c, none)
  | .owner o => ({ zeroCar with Id := o.Id }, none)
  | .marker => (zeroCar, some "invalid character looking for beginning of value")

/-- The call `json.Unmarshal(bytes, owner)` on a zero `Owner`; see `unmarshalCar`. -/
def unmarshalOwner : Value → Owner × Option Error
  | .owner o => (o, none)
  | .car c => ({ zeroOwner with Id := c.Id }, none)
  | .marker => (zeroOwner, some "invalid character looking for beginning of value")

/-- The assignment `car.Price = price` followed by `carAsBytes, _ := json.Marshal(car)`: the
document, or no bytes when `price` is an infinity or NaN, which `json.Marshal`
refuses with an error that the source discards. -/
def marshalCar (car : Car) (price : float64) : Option Value :=
  match price with
  | .finite x => some (Value.car { car with Price := x })
  | _ => none

/-- The assignment `owner.Money = money` followed by `ownerAsBytes, _ := json.Marshal(owner)`;
see `marshalCar`. -/
def marshalOwner (owner : Owner) (money : float64) : Option Value :=
  match money with
  | .finite x => some (Value.owner { owner with Money := x })
  | _ => none

/-! ## `strconv.Itoa` -/

/-- The ASCII digit of `d % 10`. -/
def digitChar (d : Nat) : Char :=
  match d % 10 with
  | 0 => '0' | 1 => '1' | 2 => '2' | 3 => '3' | 4 => '4'
  | 5 => '5' | 6 => '6' | 7 => '7' | 8 => '8' | _ => '9'

/-- Decimal digits of `n`, most significant first; `fuel` bounds the number of
digits and `n + 1` always suffices. -/
def natDigits : Nat → Nat → List Char
  | 0, _ => []
  | fuel + 1, n =>
    if n < 10 then [digitChar n] else natDigits fuel (n / 10) ++ [digitChar n]

/-- The function `strconv.Itoa`: the decimal representation, with a leading `-` for a
negative number. -/
def Itoa (i : Int) : String :=
  match i with
  | .ofNat n => ⟨natDigits (n + 1) n⟩
  | .negSucc n => ⟨'-' :: natDigits (n + 2) (n + 1)⟩

/-! ## The chaincode stub -/

/-- World state: the key/value pairs of the chaincode namespace.  The first
pair with a given key is the binding of that key. -/
abbrev Store := List (Key × Value)

/-- The value bound to `k`, if any. -/
def Store.get (s : Store) (k : Key) : Option Value :=
  match s with
  | [] => none
  | (k', v) :: rest => if k' = k then some v else Store.get rest k

/-- Remove every binding of `k`. -/
def Store.del (s : Store) (k : Key) : Store :=
  match s with
  | [] => []
  | (k', v) :: rest => if k' = k then Store.del rest k else (k', v) :: Store.del rest k

/-- Bind `k` to `v`, replacing any earlier binding. -/
def Store.put (s : Store) (k : Key) (v : Value) : Store :=
  (k, v) :: Store.del s k

/-- Bind `k` to the bytes `v`, or remove `k` when there are no bytes. -/
def Store.set (s : Store) (k : Key) (v : Option Value) : Store :=
  match v with
  | some v => s.put k v
  | none => s.del k

/-- Transaction context of one invocation (`ctx.GetStub()`).

* `ledger` is the committed world state the invocation started from.
* `failing k` tells whether the backing store fails the read of `k`.
* `world` is `ledger` with the writes of the invocation applied so far (its
  write set, last write of a key winning): the world state that is committed
  when the invocation succeeds.
* `refusing k` tells whether the backing store refuses a write or a delete of
  `k`. -/
structure Ctx where
  ledger : Store
  failing : Key → Bool
  world : Store
  refusing : Key → Bool

/-- A fresh invocation on world state `s`, with no write refused. -/
def Ctx.start (s : Store) (failing : Key → Bool) : Ctx := ⟨s, failing, s, fun _ => false⟩

/-- The context `ctx` with `refusing` as the writes that are refused. -/
def Ctx.refuse (ctx : Ctx) (refusing : Key → Bool) : Ctx := { ctx with refusing := refusing }

/-- The stub's `GetState`.  It returns the committed value of `key` (`nil`, here
`none`, when the key is absent).  The writes of the running invocation are not
consulted: the interface of the Fabric shim documents that "GetState doesn't
read data from the writeset, which has not been committed to the ledger", and
`PutState` and `DelState` only record a write in that write set.  A failing
read returns an error. -/
def GetState (ctx : Ctx) (key : Key) : Except Error (Option Value) :=
  if ctx.failing key then .error "ledger read failure" else .ok (ctx.ledger.get key)

/-- The stub's `GetState` as a step of an invocation: the context the call hands
back and its result.  A read records nothing in the write set. -/
def Step.GetState (ctx : Ctx) (key : Key) : Ctx × Except Error (Option Value) :=
  (ctx, Cars.GetState ctx key)

/-- The stub's `PutState`.  The shim rejects the empty key, and the backing store
may refuse the write; nothing is recorded then.  Otherwise the write of
`value` under `key` is recorded; the write of no bytes (`nil`) is recorded as
the deletion of `key`, which is how the ledger treats an empty value. -/
def PutState (ctx : Ctx) (key : Key) (value : Option Value) : Ctx × Option Error :=
  if key = "" then (ctx, some "key must not be an empty string")
  else if ctx.refusing key then (ctx, some "ledger write failure")
  else ({ ctx with world := ctx.world.set key value }, none)

/-- The stub's `DelState`: records the deletion of `key`, unless the backing store
refuses it. -/
def DelState (ctx : Ctx) (key : Key) : Ctx × Option Error :=
  if ctx.refusing key then (ctx, some "ledger write failure")
  else ({ ctx with world := ctx.world.del key }, none)

/-- `U+0000`, the separator of composite keys (`minUnicodeRuneValue`). -/
def minUnicodeRuneValue : Char := Char.ofNat 0

/-- `U+10FFFF` (`maxUnicodeRuneValue`, `utf8.MaxRune`). -/
def maxUnicodeRuneValue : Char := Char.ofNat 0x10FFFF

/-- The shim's `validateCompositeKeyAttribute`: neither `U+0000` nor `U+10FFFF`
occurs.  Its other check, `utf8.ValidString`, always passes here: a `String` is
a sequence of Unicode scalar values. -/
def validateCompositeKeyAttribute (str : String) : Bool :=
  str.data.all (fun c => decide (c ≠ minUnicodeRuneValue) && decide (c ≠ maxUnicodeRuneValue))

/-- The attributes of a composite key, each followed by `U+0000`. -/
def joinAttributes : List String → List Char
  | [] => []
  | a :: rest => a.data ++ minUnicodeRuneValue :: joinAttributes rest

/-- The stub's `CreateCompositeKey`:
`"\x00" + objectType + "\x00" + att1 + "\x00" + ... + attn + "\x00"`, or an
error (with the empty key) when the object type or an attribute fails
validation. -/
def CreateCompositeKey (objectType : String) (attributes : List String) : Except Error Key :=
  if validateCompositeKeyAttribute objectType && attributes.all validateCompositeKeyAttribute then
    .ok ⟨minUnicodeRuneValue :: (objectType.data ++ minUnicodeRuneValue :: joinAttributes attributes)⟩
  else
    .error "input contains unicode U+0000 or U+10FFFF, not allowed in the input attribute of a composite key"

/-- The Go idiom `key, _ := CreateCompositeKey(...)`: the error is dropped and the key is
`""` when there was one. -/
def keyOrEmpty (r : Except Error Key) : Key :=
  match r with
  | .ok k => k
  | .error _ => ""

/-- A simple key in the sense of the stub's `PutState`: not the empty string and
not starting with `U+0000`, the first character of every composite key. -/
def simpleKey (k : Key) : Bool :=
  match k.data with
  | [] => false
  | c :: _ => decide (c ≠ minUnicodeRuneValue)

/-! ## The contract (`cars.go`, lines 48-367) -/

/-- The index marker `[]byte{0x00}`. -/
def value : Value := Value.marker

/-- The name of the secondary index. -/
def indexName : String := "color~owner~id"

/-- The cars seeded by `InitLedger` (lines 49-66). -/
def cars : List Car :=
  [ ⟨1, "Toyota", "Prius", "blue", "1", [⟨"Bad engine", 1000⟩], 5000⟩,
    ⟨2, "Ford", "Mustang", "blue", "3", [], 3000⟩,
    ⟨3, "Hyundai", "Tucson", "green", "2", [⟨"Eletronic failure", 800⟩], 2500⟩,
    ⟨4, "Volkswagen", "Passat", "blue", "2", [], 7000⟩,
    ⟨5, "Tesla", "S", "blue", "3", [], 20000⟩,
    ⟨6, "Peugeot", "205", "black", "3", [], 2000⟩ ]

/-- The owners seeded by `InitLedger` (lines 68-72). -/
def owners : List Owner :=
  [ ⟨1, "Marko", "Markovic", "markonikolic@gmail.com", 80000⟩,
    ⟨2, "Nikola", "Kajtes", "nikolakajtes@gmail.com", 100000⟩,
    ⟨3, "Petar", "Nikolic", "petarnikolic@gmail.com", 150000⟩ ]

/-- The first loop of `InitLedger` (lines 74-96): each car is stored under
`"CAR" + Itoa(Id)` and its index entry is written; a write that fails or a
composite key that cannot be built ends the function with the error. -/
def putCars (ctx : Ctx) : List Car → Ctx × Option Error
  | [] => (ctx, none)
  | car :: rest =>
    match PutState ctx ("CAR" ++ Itoa car.Id) (some (Value.car car)) with
    | (ctx1, some err) => (ctx1, some ("failed to put car to world state. " ++ err))
    | (ctx1, none) =>
      match CreateCompositeKey indexName [car.Color, car.Owner, Itoa car.Id] with
      | .error err => (ctx1, some err)
      | .ok colorOwnerIndexKey =>
        match PutState ctx1 colorOwnerIndexKey (some value) with
        | (ctx2, some err) => (ctx2, some err)
        | (ctx2, none) => putCars ctx2 rest

/-- The second loop of `InitLedger` (lines 98-105): each owner is stored under
`"OWNER" + Itoa(Id)`; a write that fails ends the function with the error. -/
def putOwners (ctx : Ctx) : List Owner → Ctx × Option Error
  | [] => (ctx, none)
  | owner :: rest =>
    match PutState ctx ("OWNER" ++ Itoa owner.Id) (some (Value.owner owner)) with
    | (ctx1, some err) => (ctx1, some ("failed to put to world state. " ++ err))
    | (ctx1, none) => putOwners ctx1 rest

/-- `InitLedger` (lines 48-108). -/
def InitLedger (ctx : Ctx) : Ctx × Option Error :=
  match putCars ctx cars with
  | (ctx1, some err) => (ctx1, some err)
  | (ctx1, none) => putOwners ctx1 owners

/-- `CreateCar` (lines 111-123): the record has `Id` 0 and no damages, no index
entry is written, and the error of `PutState` is returned. -/
def CreateCar (ctx : Ctx) (carNumber : Key) (make model color owner : String) (price : float64) :
    Ctx × Option Error :=
  let car : Car := { zeroCar with Make := make, Model := model, Color := color, Owner := owner }
  PutState ctx carNumber (marshalCar car price)

/-- `GetCarById` (lines 125-140) as a step of an invocation: the context it
hands back and its result.  The error of `json.Unmarshal` is discarded. -/
def Step.GetCarById (ctx : Ctx) (carId : Key) : Ctx × Except Error Car :=
  match Step.GetState ctx carId with
  | (ctx1, .error err) => (ctx1, .error ("failed to read from world state. " ++ err))
  | (ctx1, .ok none) => (ctx1, .error (carId ++ " does not exist"))
  | (ctx1, .ok (some carAsBytes)) => (ctx1, .ok (unmarshalCar carAsBytes).1)

/-- The result of `GetCarById`. -/
def GetCarById (ctx : Ctx) (carId : Key) : Except Error Car :=
  (Step.GetCarById ctx carId).2

/-- `GetOwnerById` (lines 142-157) as a step of an invocation.  The error of
`json.Unmarshal` is discarded. -/
def Step.GetOwnerById (ctx : Ctx) (ownerId : Key) : Ctx × Except Error Owner :=
  match Step.GetState ctx ownerId with
  | (ctx1, .error err) => (ctx1, .error ("failed to read from world state. " ++ err))
  | (ctx1, .ok none) => (ctx1, .error (ownerId ++ " does not exist"))
  | (ctx1, .ok (some ownerAsBytes)) => (ctx1, .ok (unmarshalOwner ownerAsBytes).1)

/-- The result of `GetOwnerById`. -/
def GetOwnerById (ctx : Ctx) (ownerId : Key) : Except Error Owner :=
  (Step.GetOwnerById ctx ownerId).2

/-- `CarExists` (lines 338-345) as a step of an invocation. -/
def Step.CarExists (ctx : Ctx) (carId : Key) : Ctx × Bool × Option Error :=
  match Step.GetState ctx carId with
  | (ctx1, .error err) => (ctx1, false, some ("failed to read from world state: " ++ err))
  | (ctx1, .ok car) => (ctx1, car.isSome, none)

/-- The result of `CarExists`. -/
def CarExists (ctx : Ctx) (carId : Key) : Bool × Option Error :=
  (Step.CarExists ctx carId).2

/-- `OwnerExists` (lines 347-354) as a step of an invocation. -/
def Step.OwnerExists (ctx : Ctx) (ownerId : Key) : Ctx × Bool × Option Error :=
  match Step.GetState ctx ownerId with
  | (ctx1, .error err) => (ctx1, false, some ("failed to read from world state: " ++ err))
  | (ctx1, .ok owner) => (ctx1, owner.isSome, none)

/-- The result of `OwnerExists`. -/
def OwnerExists (ctx : Ctx) (ownerId : Key) : Bool × Option Error :=
  (Step.OwnerExists ctx ownerId).2

/-- `ChangeCarColor` (lines 186-214).  The errors of the two `PutState` calls are
returned (lines 196-199 and 208-211); the result of `DelState` (line 206) is
not looked at. -/
def ChangeCarColor (ctx : Ctx) (carId : Key) (color : String) : Ctx × Option Error :=
  match GetCarById ctx carId with
  | .error err => (ctx, some err)
  | .ok car =>
    let oldKey := keyOrEmpty (CreateCompositeKey indexName [car.Color, car.Owner, Itoa car.Id])
    let car := { car with Color := color }
    match PutState ctx carId (some (Value.car car)) with
    | (ctx1, some err) => (ctx1, some err)
    | (ctx1, none) =>
      match CreateCompositeKey indexName [color, car.Owner, Itoa car.Id] with
      | .error err => (ctx1, some err)
      | .ok key =>
        let ctx2 := (DelState ctx1 oldKey).1
        PutState ctx2 key (some value)

/-- The settlement block of `TransferOwnership`.  The source has it twice, word
for word: lines 244-276 with `car.Price` as the price and lines 287-319 with
`carPrice`.  Only the error of the `PutState` of the index key is returned
(lines 258-261 and 301-304); the results of the other `PutState` calls and of
`DelState` are not looked at. -/
def settle (ctx : Ctx) (carId newOwner : Key) (car : Car) (owner : Owner) (price : float64) :
    Ctx × Option Error :=
  let oldOwnerId := car.Owner
  let oldKey := keyOrEmpty (CreateCompositeKey indexName [car.Color, car.Owner, carId])
  let car := { car with Owner := Itoa owner.Id }
  let ctx1 := (PutState ctx carId (some (Value.car car))).1
  match CreateCompositeKey indexName [car.Color, Itoa owner.Id, Itoa car.Id] with
  | .error err => (ctx1, some err)
  | .ok key =>
    let ctx2 := (DelState ctx1 oldKey).1
    match PutState ctx2 key (some value) with
    | (ctx3, some err) => (ctx3, some err)
    | (ctx3, none) =>
      let ownerMoney := (owner.Money : float64) - price
      let ctx4 := (PutState ctx3 newOwner (marshalOwner owner ownerMoney)).1
      match GetOwnerById ctx4 ("OWNER" ++ oldOwnerId) with
      | .error err => (ctx4, some err)
      | .ok oldOwner =>
        ((PutState ctx4 ("OWNER" ++ oldOwnerId)
          (marshalOwner oldOwner ((oldOwner.Money : float64) + price))).1, none)

/-- The loop of lines 279-282: the damage prices added one by one to `0.0`. -/
def damagesPrice (damages : List Damage) : float64 :=
  damages.foldl (fun acc damage => acc + (damage.Price : float64)) 0

/-- `TransferOwnership` (lines 217-336). -/
def TransferOwnership (ctx : Ctx) (carId newOwner : Key) (acceptsDamages : Bool) :
    Ctx × Option Error :=
  match CarExists ctx carId with
  | (_, some err) => (ctx, some ("failed to read from world state: " ++ err))
  | (carExists, none) =>
    match OwnerExists ctx newOwner with
    | (_, some err) => (ctx, some ("failed to read from world state: " ++ err))
    | (ownerExists, none) =>
      if carExists && ownerExists then
        match GetCarById ctx carId with
        | .error err => (ctx, some err)
        | .ok car =>
          match GetOwnerById ctx newOwner with
          | .error err => (ctx, some err)
          | .ok owner =>
            if car.Damages.length = 0 ∧ (owner.Money : float64) ≥ car.Price then
              settle ctx carId newOwner car owner car.Price
            else if car.Damages.length > 0 ∧ acceptsDamages = true then
              let carPrice := (car.Price : float64) - damagesPrice car.Damages
              if (owner.Money : float64) ≥ carPrice then
                settle ctx carId newOwner car owner carPrice
              else
                (ctx, some "new owner does not have enough money to buy this car")
            else if car.Damages.length > 0 ∧ acceptsDamages = false then
              (ctx, some "car has damages and new owner does not want them")
            else if car.Damages.length = 0 ∧ (owner.Money : float64) < car.Price then
              (ctx, some "new owner does not have enough money to buy this car")
            else
              (ctx, none)
      else
        (ctx, none)

/-- `DeleteCar` (lines 356-367): the error of `DelState` is returned. -/
def DeleteCar (ctx : Ctx) (carId : Key) : Ctx × Option Error :=
  match CarExists ctx carId with
  | (_, some err) => (ctx, some ("failed to read from world state: " ++ err))
  | (exists_, none) =>
    if !exists_ then (ctx, some ("the asset " ++ carId ++ " does not exist"))
    else DelState ctx carId

/-! ## The range scan and `GetAllCars` (`cars.go`, lines 159-184) -/

/-- Order of keys in the ledger: lexicographic on code points, which is the
byte order of the UTF-8 encodings. -/
def keyLt : List Char → List Char → Bool
  | _, [] => false
  | [], _ :: _ => true
  | a :: as, b :: bs =>
    if a.toNat < b.toNat then true
    else if a.toNat = b.toNat then keyLt as bs
    else false

/-- Insert the binding of `k` at its place in a list of bindings in increasing
key order, replacing a binding of the same key. -/
def insertBinding (k : Key) (v : Value) : List (Key × Value) → List (Key × Value)
  | [] => [(k, v)]
  | (k', v') :: rest =>
    if keyLt k.data k'.data then (k, v) :: (k', v') :: rest
    else if k = k' then (k, v) :: rest
    else (k', v') :: insertBinding k v rest

/-- The bindings of a world state in increasing key order, one per key. -/
def Store.scan (s : Store) : List (Key × Value) :=
  match s with
  | [] => []
  | (k, v) :: rest => insertBinding k v (Store.scan rest)

/-- Bindings in strictly increasing key order. -/
def Increasing (l : List (Key × Value)) : Prop :=
  l.Pairwise (fun p q => keyLt p.1.data q.1.data = true)

/-- The shim's `emptyKeySubstitute`: the start key that replaces `""`, so that
an open-ended range starts after the composite keys. -/
def emptyKeySubstitute : Key := "\x01"

/-- The shim's `validateSimpleKeys` on one key: a non-empty key must not start
with `U+0000`. -/
def validateSimpleKey (key : Key) : Bool :=
  match key.data with
  | [] => true
  | c :: _ => decide (c ≠ minUnicodeRuneValue)

/-- Membership of `k` in the range from `startKey` (included) to `endKey`
(excluded, or unbounded when `""`). -/
def inRange (startKey endKey k : Key) : Bool :=
  !keyLt k.data startKey.data && (decide (endKey = "") || keyLt k.data endKey.data)

/-- The stub's `GetStateByRange` with its iterator run to the end: the committed
bindings of the range in key order.  An empty `startKey` is replaced by
`emptyKeySubstitute`, so the composite keys are never in an open-ended range.
The two ways the source can meet an error, from `GetStateByRange` itself and
from `Next`, are one here: the scan fails when the read of a key of the range
fails. -/
def GetStateByRange (ctx : Ctx) (startKey endKey : Key) : Except Error (List (Key × Value)) :=
  let startKey := if startKey = "" then emptyKeySubstitute else startKey
  if validateSimpleKey startKey && validateSimpleKey endKey then
    let entries := (ctx.ledger.scan).filter (fun q => inRange startKey endKey q.1)
    if entries.any (fun q => ctx.failing q.1) then .error "ledger read failure"
    else .ok entries
  else
    .error "first character of the key contains a null character which is not allowed"

/-- The stub's `GetStateByRange`, its iterator run to the end and closed, as a
step of an invocation.  A range read records nothing in the write set. -/
def Step.GetStateByRange (ctx : Ctx) (startKey endKey : Key) :
    Ctx × Except Error (List (Key × Value)) :=
  (ctx, Cars.GetStateByRange ctx startKey endKey)

/-- The loop of `GetAllCars` (lines 169-181) over the entries of the iterator:
each value is decoded into a fresh `Car` and appended; the first decoding error
ends the function. -/
def appendCars (cars : List Car) : List (Key × Value) → Except Error (List Car)
  | [] => .ok cars
  | queryResponse :: rest =>
    match unmarshalCar queryResponse.2 with
    | (_, some err) => .error err
    | (car, none) => appendCars (cars ++ [car]) rest

/-- `GetAllCars` (lines 159-184) as a step of an invocation. -/
def Step.GetAllCars (ctx : Ctx) : Ctx × Except Error (List Car) :=
  match Step.GetStateByRange ctx "" "" with
  | (ctx1, .error err) => (ctx1, .error err)
  | (ctx1, .ok resultsIterator) => (ctx1, appendCars [] resultsIterator)

/-- The result of `GetAllCars`. -/
def GetAllCars (ctx : Ctx) : Except Error (List Car) :=
  (Step.GetAllCars ctx).2


/-! ## World states -/

/-- The world state with the writes of an invocation applied: the state that is
committed when the invocation returns no error, and what the invocation had
written when it returns one (the host then discards the writes). -/
def after (r : Ctx × Option Error) : Store := r.1.world

/-- No read fails. -/
def noFailure : Key → Bool := fun _ => false

/-- The world state after `InitLedger` on the empty ledger. -/
def seeded : Store := after (InitLedger (Ctx.start [] noFailure))

/-- The balance stored under `k`: the `Money` of the record as `GetOwnerById`
decodes it, 0 when nothing is stored. -/
def balance (s : Store) (k : Key) : float64 :=
  match s.get k with
  | some v => (unmarshalOwner v).1.Money
  | none => 0

/-- The world state a settlement at `price` leaves when no write is refused, the
new index key is `key` and the relinquishing owner's record decodes to `o`. -/
def settled (w : Store) (carId newOwner : Key) (c : Car) (n o : Owner) (price : float64)
    (key : Key) : Store :=
  ((((w.put carId (Value.car { c with Owner := Itoa n.Id })).del
      (keyOrEmpty (CreateCompositeKey indexName [c.Color, c.Owner, carId]))).put key value).set
      newOwner (marshalOwner n ((n.Money : float64) - price))).set
    ("OWNER" ++ c.Owner) (marshalOwner o ((o.Money : float64) + price))

/-- The write of exactly the key `k` is refused. -/
def refusingOnly (k : Key) : Key → Bool := fun k' => decide (k' = k)

/-! ## Ledgers used in the examples -/

/-- The seeded ledger after `CreateCar("CAR7", "Fiat", "Uno", "red", "9", 100)`:
car 7 names an owner, `"9"`, that has no record. -/
def orphanLedger : Store :=
  after (CreateCar (Ctx.start seeded noFailure) "CAR7" "Fiat" "Uno" "red" "9" 100)

/-- The seeded ledger after `CreateCar("CAR7", "Fiat", "Uno", "\x00", "1", 100)`: the
colour of car 7 is the one character `U+0000`. -/
def nulColourLedger : Store :=
  after (CreateCar (Ctx.start seeded noFailure) "CAR7" "Fiat" "Uno" "\x00" "1" 100)

/-- The composite key of (blue, "2", "0"), used below as a car key. -/
def compositeCarKey : Key := keyOrEmpty (CreateCompositeKey indexName ["blue", "2", "0"])

/-- The seeded ledger after `CreateCar(compositeCarKey, "Fiat", "Uno", "blue", "1",
100)`: a car (with `Id` 0) stored under a key that is a composite key. -/
def compositeCarLedger : Store :=
  after (CreateCar (Ctx.start seeded noFailure) compositeCarKey "Fiat" "Uno" "blue" "1" 100)

/-- The seeded ledger after `CreateCar(compositeCarKey, "Fiat", "Uno", "green", "2",
100)` and `ChangeCarColor(compositeCarKey, "red")`: the car stored under the
composite key of (blue, "2", "0") is red, has owner "2" and `Id` 0, and its
index entry (red, "2", "0") is present. -/
def recolouredLedger : Store :=
  after (ChangeCarColor
    (Ctx.start
      (after (CreateCar (Ctx.start seeded noFailure) compositeCarKey "Fiat" "Uno" "green" "2" 100))
      noFailure)
    compositeCarKey "red")

/-- The seeded ledger after `CreateCar("CAR7", "Fiat", "Uno", "red", "1", -500)`:
car 7 has no damages and a negative price. -/
def negativePriceLedger : Store :=
  after (CreateCar (Ctx.start seeded noFailure) "CAR7" "Fiat" "Uno" "red" "1"
    (float64.round (-500) 0))

/-- The seeded ledger with car 1 priced 500 and carrying a damage of 1000.  No
operation of the contract sets a damage or changes a price, so this state comes
from a ledger written otherwise. -/
def overdamagedLedger : Store :=
  seeded.put "CAR1" (Value.car ⟨1, "Toyota", "Prius", "blue", "1", [⟨"Bad engine", 1000⟩], 500⟩)

/-- The seeded ledger with car 1 priced `2^53 + 2` and carrying a damage of 1, and
owner 2 holding `2^53`. -/
def roundingLedger : Store :=
  (seeded.put "CAR1"
    (Value.car ⟨1, "Toyota", "Prius", "blue", "1", [⟨"Bad engine", 1⟩], 9007199254740994⟩)).put
    "OWNER2" (Value.owner ⟨2, "Nikola", "Kajtes", "nikolakajtes@gmail.com", 9007199254740992⟩)

/-- The price `-1.7e308`. -/
def hugeDiscount : float64 := float64.round (-(17 * 10 ^ 307)) 0

/-- The seeded ledger after `CreateCar("CAR7", "Fiat", "Uno", "red", "1", -1.7e308)`,
`TransferOwnership("CAR7", "OWNER2", false)` and `CreateCar("CAR8", "Fiat", "Uno",
"red", "1", -1.7e308)`: the first transfer has credited owner 2 with `1.7e308`
and debited owner 1 by it, and car 8, priced `-1.7e308`, belongs to owner 1. -/
def richLedger : Store :=
  after (CreateCar
    (Ctx.start
      (after (TransferOwnership
        (Ctx.start
          (after (CreateCar (Ctx.start seeded noFailure) "CAR7" "Fiat" "Uno" "red" "1"
            hugeDiscount))
          noFailure)
        "CAR7" "OWNER2" false))
      noFailure)
    "CAR8" "Fiat" "Uno" "red" "1" hugeDiscount)

/-- The seeded ledger after `CreateCar(compositeCarKey, "Fiat", "Uno", "blue", "2",
100)`: a blue car with owner "2" and `Id` 0 stored under the key that is its own
index key, the composite key of (blue, "2", "0"). -/
def selfIndexedLedger : Store :=
  after (CreateCar (Ctx.start seeded noFailure) compositeCarKey "Fiat" "Uno" "blue" "2" 100)

/-! ## Index consistency -/

/-- Index consistency of a world state: every car record has its index entry,
it has no other entry under its id, and every index entry is the entry of a
car record with that colour, owner and id. -/
def IndexConsistent (s : Store) : Prop :=
  (∀ k c, s.get k = some (Value.car c) →
    (∃ ik, CreateCompositeKey indexName [c.Color, c.Owner, Itoa c.Id] = .ok ik ∧
      s.get ik = some Value.marker) ∧
    (∀ col own ik, CreateCompositeKey indexName [col, own, Itoa c.Id] = .ok ik →
      s.get ik ≠ none → col = c.Color ∧ own = c.Owner)) ∧
  (∀ col own id ik, CreateCompositeKey indexName [col, own, id] = .ok ik → s.get ik ≠ none →
    ∃ k c, s.get k = some (Value.car c) ∧ Itoa c.Id = id ∧ c.Color = col ∧ c.Owner = own)

/-- World states reached from the empty ledger by `InitLedger` followed by
successful `CreateCar`, `ChangeCarColor` and `TransferOwnership` invocations,
each committed before the next one starts. -/
inductive Reachable : Store → Prop
  | init (f : Key → Bool) : (InitLedger (Ctx.start [] f)).2 = none →
      Reachable (after (InitLedger (Ctx.start [] f)))
  | create (s : Store) (f : Key → Bool) (carNumber : Key) (make model color owner : String)
      (price : float64) : Reachable s →
      (CreateCar (Ctx.start s f) carNumber make model color owner price).2 = none →
      Reachable (after (CreateCar (Ctx.start s f) carNumber make model color owner price))
  | colour (s : Store) (f : Key → Bool) (carId : Key) (color : String) : Reachable s →
      (ChangeCarColor (Ctx.start s f) carId color).2 = none →
      Reachable (after (ChangeCarColor (Ctx.start s f) carId color))
  | transfer (s : Store) (f : Key → Bool) (carId newOwner : Key) (acceptsDamages : Bool) :
      Reachable s →
      (TransferOwnership (Ctx.start s f) carId newOwner acceptsDamages).2 = none →
      Reachable (after (TransferOwnership (Ctx.start s f) carId newOwner acceptsDamages))

/-- World states reached from the empty ledger by `InitLedger` followed by
successful `ChangeCarColor` invocations on keys that hold a car record. -/
inductive ColourReachable : Store → Prop
  | init (f : Key → Bool) : (InitLedger (Ctx.start [] f)).2 = none →
      ColourReachable (after (InitLedger (Ctx.start [] f)))
  | colour (s : Store) (f : Key → Bool) (carId : Key) (color : String) (c : Car) :
      ColourReachable s → s.get carId = some (Value.car c) →
      (ChangeCarColor (Ctx.start s f) carId color).2 = none →
      ColourReachable (after (ChangeCarColor (Ctx.start s f) carId color))

/-- The invariant behind index consistency: every car record is stored under
`"CAR" + Itoa(Id)` and has its index entry, and every index entry is the entry
of the car record under `"CAR" + id`. -/
def IndexInvariant (s : Store) : Prop :=
  (∀ k c, s.get k = some (Value.car c) → k = "CAR" ++ Itoa c.Id ∧
    ∃ ik, CreateCompositeKey indexName [c.Color, c.Owner, Itoa c.Id] = .ok ik ∧
      s.get ik = some Value.marker) ∧
  (∀ col own id ik, CreateCompositeKey indexName [col, own, id] = .ok ik → s.get ik ≠ none →
    ∃ c, s.get ("CAR" ++ id) = some (Value.car c) ∧ Itoa c.Id = id ∧ c.Color = col ∧
      c.Owner = own)

/-- Check of one binding for the first half of `IndexInvariant`. -/
def carBindingOk (s : Store) (p : Key × Value) : Bool :=
  match p.2 with
  | .car c =>
    decide (p.1 = "CAR" ++ Itoa c.Id) &&
      (validateCompositeKeyAttribute c.Color && validateCompositeKeyAttribute c.Owner) &&
      decide (s.get (keyOrEmpty (CreateCompositeKey indexName [c.Color, c.Owner, Itoa c.Id])) =
        some Value.marker)
  | _ => true

/-- Check of one binding for the second half of `IndexInvariant`: the key is a
simple key, or it is the index key of a car record found under `"CAR" + Itoa(Id)`. -/
def indexBindingOk (s : Store) (p : Key × Value) : Bool :=
  simpleKey p.1 ||
    s.any (fun q =>
      match q.2 with
      | .car c =>
        (validateCompositeKeyAttribute c.Color && validateCompositeKeyAttribute c.Owner) &&
          decide (keyOrEmpty (CreateCompositeKey indexName [c.Color, c.Owner, Itoa c.Id]) = p.1) &&
          decide (s.get ("CAR" ++ Itoa c.Id) = some (Value.car c))
      | _ => false)

/-! ## The world states the contract produces -/

/-- World states reached from the empty ledger by `InitLedger` followed by
successful invocations of `CreateCar`, `ChangeCarColor`, `TransferOwnership`
and `DeleteCar`, each committed before the next one starts, whatever reads
fail and whatever writes are refused on the way. -/
inductive Committed : Store → Prop
  | init (f r : Key → Bool) : (InitLedger ((Ctx.start [] f).refuse r)).2 = none →
      Committed (after (InitLedger ((Ctx.start [] f).refuse r)))
  | create (s : Store) (f r : Key → Bool) (carNumber : Key) (make model color owner : String)
      (price : float64) : Committed s →
      (CreateCar ((Ctx.start s f).refuse r) carNumber make model color owner price).2 = none →
      Committed (after (CreateCar ((Ctx.start s f).refuse r) carNumber make model color owner
        price))
  | colour (s : Store) (f r : Key → Bool) (carId : Key) (color : String) : Committed s →
      (ChangeCarColor ((Ctx.start s f).refuse r) carId color).2 = none →
      Committed (after (ChangeCarColor ((Ctx.start s f).refuse r) carId color))
  | transfer (s : Store) (f r : Key → Bool) (carId newOwner : Key) (acceptsDamages : Bool) :
      Committed s →
      (TransferOwnership ((Ctx.start s f).refuse r) carId newOwner acceptsDamages).2 = none →
      Committed (after (TransferOwnership ((Ctx.start s f).refuse r) carId newOwner
        acceptsDamages))
  | delete (s : Store) (f r : Key → Bool) (carId : Key) : Committed s →
      (DeleteCar ((Ctx.start s f).refuse r) carId).2 = none →
      Committed (after (DeleteCar ((Ctx.start s f).refuse r) carId))

/-- What the contract maintains about its records: nothing is stored under the
empty key, and a car record with damages is stored under a simple key and has a
colour accepted as a composite-key attribute. -/
def WellFormed (s : Store) : Prop :=
  s.get "" = none ∧
  ∀ k c, s.get k = some (Value.car c) → c.Damages ≠ [] →
    simpleKey k = true ∧ validateCompositeKeyAttribute c.Color = true


/-! ## The results of the queries -/

theorem GetCarById_eq (ctx : Ctx) (carId : Key) :
    GetCarById ctx carId =
      match GetState ctx carId with
      | .error err => .error ("failed to read from world state. " ++ err)
      | .ok none => .error (carId ++ " does not exist")
      | .ok (some carAsBytes) => .ok (unmarshalCar carAsBytes).1 := by
  unfold GetCarById Step.GetCarById Step.GetState
  cases GetState ctx carId with
  | error e => rfl
  | ok r => cases r <;> rfl

theorem GetOwnerById_eq (ctx : Ctx) (ownerId : Key) :
    GetOwnerById ctx ownerId =
      match GetState ctx ownerId with
      | .error err => .error ("failed to read from world state. " ++ err)
      | .ok none => .error (ownerId ++ " does not exist")
      | .ok (some ownerAsBytes) => .ok (unmarshalOwner ownerAsBytes).1 := by
  unfold GetOwnerById Step.GetOwnerById Step.GetState
  cases GetState ctx ownerId with
  | error e => rfl
  | ok r => cases r <;> rfl

theorem CarExists_eq (ctx : Ctx) (carId : Key) :
    CarExists ctx carId =
      match GetState ctx carId with
      | .error err => (false, some ("failed to read from world state: " ++ err))
      | .ok car => (car.isSome, none) := by
  unfold CarExists Step.CarExists Step.GetState
  cases GetState ctx carId <;> rfl

theorem OwnerExists_eq (ctx : Ctx) (ownerId : Key) :
    OwnerExists ctx ownerId =
      match GetState ctx ownerId with
      | .error err => (false, some ("failed to read from world state: " ++ err))
      | .ok owner => (owner.isSome, none) := by
  unfold OwnerExists Step.OwnerExists Step.GetState
  cases GetState ctx ownerId <;> rfl

theorem GetAllCars_eq (ctx : Ctx) :
    GetAllCars ctx =
      match GetStateByRange ctx "" "" with
      | .error err => .error err
      | .ok resultsIterator => appendCars [] resultsIterator := by
  unfold GetAllCars Step.GetAllCars Step.GetStateByRange
  cases GetStateByRange ctx "" "" <;> rfl

/-! ## Lemmas on the store -/

theorem Store.get_del (s : Store) (k k' : Key) :
    (Store.del s k).get k' = if k' = k then none else s.get k' := by
  induction s with
  | nil => simp [Store.del, Store.get]
  | cons p rest ih =>
    obtain ⟨a, v⟩ := p
    by_cases hak : a = k
    · subst hak
      by_cases h : k' = a
      · subst h
        simpa [Store.del, Store.get] using ih
      · have h2 : ¬ a = k' := fun e => h e.symm
        simpa [Store.del, Store.get, h, h2] using ih
    · by_cases h : k' = k
      · subst h
        simpa [Store.del, Store.get, hak] using ih
      · simp only [h, if_false] at ih
        simp [Store.del, Store.get, hak, h, ih]

theorem Store.get_put (s : Store) (k k' : Key) (v : Value) :
    (Store.put s k v).get k' = if k' = k then some v else s.get k' := by
  unfold Store.put
  by_cases h : k' = k
  · subst h
    simp [Store.get]
  · have h2 : ¬ k = k' := fun e => h e.symm
    simp [Store.get, h2, h, Store.get_del]

theorem Store.mem_of_get {s : Store} {k : Key} {v : Value} (h : s.get k = some v) :
    (k, v) ∈ s := by
  induction s with
  | nil => simp [Store.get] at h
  | cons p rest ih =>
    obtain ⟨a, w⟩ := p
    unfold Store.get at h
    split at h
    · rename_i hak
      injection h with h
      rw [hak, h]
      exact List.mem_cons_self _ _
    · exact List.mem_cons_of_mem _ (ih h)

theorem ne_of_get_ne {s : Store} {k k' : Key} {v v' : Option Value}
    (h : s.get k = v) (h' : s.get k' = v') (hv : v ≠ v') : k ≠ k' := by
  intro e
  rw [e] at h
  exact hv (h.symm.trans h')

theorem GetState_ledger {ctx : Ctx} {k : Key} {v : Option Value}
    (h : GetState ctx k = .ok v) : ctx.failing k = false ∧ ctx.ledger.get k = v := by
  unfold GetState at h
  split at h
  · cases h
  · rename_i hf
    injection h with h
    exact ⟨by simpa using hf, h⟩

/-! ## Lemmas on the range scan -/

theorem charToNat_inj (a b : Char) (h : a.toNat = b.toNat) : a = b := by
  apply Char.ext
  cases a with | mk va ha =>
  cases b with | mk vb hb =>
  cases va with | mk fa =>
  cases vb with | mk fb =>
  simp only [Char.toNat, UInt32.toNat] at h
  congr
  exact BitVec.eq_of_toNat_eq h

theorem keyLt_irrefl (a : List Char) : keyLt a a = false := by
  induction a with
  | nil => rfl
  | cons x t ih => simp [keyLt, ih]

theorem keyLt_trans : ∀ (a b c : List Char), keyLt a b = true → keyLt b c = true →
    keyLt a c = true := by
  intro a
  induction a with
  | nil =>
    intro b c h1 h2
    cases b with
    | nil => simp [keyLt] at h1
    | cons y u =>
      cases c with
      | nil => simp [keyLt] at h2
      | cons z v => simp [keyLt]
  | cons x t ih =>
    intro b c h1 h2
    cases b with
    | nil => simp [keyLt] at h1
    | cons y u =>
      cases c with
      | nil => simp [keyLt] at h2
      | cons z v =>
        simp only [keyLt] at h1 h2 ⊢
        by_cases hxy : x.toNat < y.toNat
        · by_cases hyz : y.toNat < z.toNat
          · have : x.toNat < z.toNat := by omega
            simp [this]
          · simp only [hyz, if_false] at h2
            by_cases eyz : y.toNat = z.toNat
            · have : x.toNat < z.toNat := by omega
              simp [this]
            · simp [eyz] at h2
        · simp only [hxy, if_false] at h1
          by_cases exy : x.toNat = y.toNat
          · simp only [exy, if_true] at h1
            by_cases hyz : y.toNat < z.toNat
            · have : x.toNat < z.toNat := by omega
              simp [this]
            · simp only [hyz, if_false] at h2
              by_cases eyz : y.toNat = z.toNat
              · simp only [eyz, if_true] at h2
                have h3 : ¬ x.toNat < z.toNat := by omega
                have h4 : x.toNat = z.toNat := by omega
                rw [if_neg h3, if_pos h4]
                exact ih u v h1 h2
              · simp [eyz] at h2
          · simp [exy] at h1

theorem keyLt_total : ∀ (a b : List Char), keyLt a b = false → a ≠ b → keyLt b a = true := by
  intro a
  induction a with
  | nil =>
    intro b h hne
    cases b with
    | nil => exact absurd rfl hne
    | cons y u => simp [keyLt] at h
  | cons x t ih =>
    intro b h hne
    cases b with
    | nil => simp [keyLt]
    | cons y u =>
      simp only [keyLt] at h ⊢
      by_cases hxy : x.toNat < y.toNat
      · simp [hxy] at h
      · simp only [hxy, if_false] at h
        by_cases exy : x.toNat = y.toNat
        · simp only [exy, if_true] at h
          have hc : x = y := charToNat_inj x y exy
          have hne2 : t ≠ u := by
            intro e
            exact hne (by rw [hc, e])
          have h3 : ¬ y.toNat < x.toNat := by omega
          rw [if_neg h3, if_pos exy.symm]
          exact ih u h hne2
        · have : y.toNat < x.toNat := by omega
          simp [this]

theorem mem_insertBinding_sub (k : Key) (v : Value) (l : List (Key × Value)) (q : Key × Value)
    (h : q ∈ insertBinding k v l) : q = (k, v) ∨ q ∈ l := by
  induction l with
  | nil =>
    simp only [insertBinding, List.mem_singleton] at h
    exact Or.inl h
  | cons p rest ih =>
    obtain ⟨a, x⟩ := p
    unfold insertBinding at h
    split at h
    · rcases List.mem_cons.mp h with h | h
      · exact Or.inl h
      · exact Or.inr h
    · split at h
      · rcases List.mem_cons.mp h with h | h
        · exact Or.inl h
        · exact Or.inr (List.mem_cons_of_mem _ h)
      · rcases List.mem_cons.mp h with h | h
        · exact Or.inr (h ▸ List.mem_cons_self _ _)
        · rcases ih h with h | h
          · exact Or.inl h
          · exact Or.inr (List.mem_cons_of_mem _ h)

theorem Increasing_insertBinding (k : Key) (v : Value) (l : List (Key × Value))
    (hl : Increasing l) : Increasing (insertBinding k v l) := by
  induction l with
  | nil => simp [insertBinding, Increasing]
  | cons p rest ih =>
    obtain ⟨a, x⟩ := p
    unfold Increasing at hl ih ⊢
    rw [List.pairwise_cons] at hl
    unfold insertBinding
    split
    · rename_i hlt
      rw [List.pairwise_cons]
      refine ⟨?_, List.pairwise_cons.mpr hl⟩
      intro q hq
      rcases List.mem_cons.mp hq with hq | hq
      · rw [hq]; exact hlt
      · exact keyLt_trans _ _ _ hlt (hl.1 q hq)
    · split
      · rename_i _ heq
        rw [List.pairwise_cons]
        refine ⟨?_, hl.2⟩
        intro q hq
        rw [heq]
        exact hl.1 q hq
      · rename_i hlt hne
        rw [List.pairwise_cons]
        refine ⟨?_, ih hl.2⟩
        intro q hq
        rcases mem_insertBinding_sub k v rest q hq with hq | hq
        · rw [hq]
          have hlt2 : keyLt k.data a.data = false := by simpa using hlt
          have hne2 : k.data ≠ a.data := fun e => hne (String.ext e)
          exact keyLt_total _ _ hlt2 hne2
        · exact hl.1 q hq

theorem Increasing_scan (s : Store) : Increasing (Store.scan s) := by
  induction s with
  | nil => simp [Store.scan, Increasing]
  | cons p rest ih =>
    obtain ⟨a, x⟩ := p
    exact Increasing_insertBinding a x _ ih

theorem mem_insertBinding (k : Key) (v : Value) (l : List (Key × Value)) (hl : Increasing l)
    (k' : Key) (v' : Value) :
    (k', v') ∈ insertBinding k v l ↔ (k' = k ∧ v' = v) ∨ (k' ≠ k ∧ (k', v') ∈ l) := by
  induction l with
  | nil => simp [insertBinding]
  | cons p rest ih =>
    obtain ⟨a, x⟩ := p
    unfold Increasing at hl ih
    rw [List.pairwise_cons] at hl
    have hnotin : ∀ b : Key, keyLt b.data a.data = true ∨ b = a →
        ∀ w : Value, (b, w) ∉ rest := by
      intro b hb w hmem
      have h1 := hl.1 (b, w) hmem
      rcases hb with hb | hb
      · have := keyLt_trans _ _ _ hb h1
        rw [keyLt_irrefl] at this
        cases this
      · rw [hb, keyLt_irrefl] at h1
        cases h1
    unfold insertBinding
    split
    · rename_i hlt
      simp only [List.mem_cons, Prod.mk.injEq]
      constructor
      · rintro (⟨e1, e2⟩ | ⟨e1, e2⟩ | h)
        · exact Or.inl ⟨e1, e2⟩
        · refine Or.inr ⟨?_, Or.inl ⟨e1, e2⟩⟩
          intro e
          rw [e1] at e
          rw [e, keyLt_irrefl] at hlt
          cases hlt
        · refine Or.inr ⟨?_, Or.inr h⟩
          intro e
          rw [e] at h
          exact hnotin k (Or.inl hlt) v' h
      · rintro (⟨e1, e2⟩ | ⟨_, ⟨e1, e2⟩ | h⟩)
        · exact Or.inl ⟨e1, e2⟩
        · exact Or.inr (Or.inl ⟨e1, e2⟩)
        · exact Or.inr (Or.inr h)
    · split
      · rename_i _ heq
        simp only [List.mem_cons, Prod.mk.injEq]
        constructor
        · rintro (⟨e1, e2⟩ | h)
          · exact Or.inl ⟨e1, e2⟩
          · refine Or.inr ⟨?_, Or.inr h⟩
            intro e
            rw [e] at h
            exact hnotin k (Or.inr heq) v' h
        · rintro (⟨e1, e2⟩ | ⟨hne, ⟨e1, _⟩ | h⟩)
          · exact Or.inl ⟨e1, e2⟩
          · exact absurd (e1.trans heq.symm) hne
          · exact Or.inr h
      · rename_i _ hne
        simp only [List.mem_cons, Prod.mk.injEq]
        rw [ih hl.2]
        constructor
        · rintro (⟨e1, e2⟩ | ⟨e1, e2⟩ | ⟨h1, h2⟩)
          · refine Or.inr ⟨?_, Or.inl ⟨e1, e2⟩⟩
            intro e
            exact hne (e.symm.trans e1)
          · exact Or.inl ⟨e1, e2⟩
          · exact Or.inr ⟨h1, Or.inr h2⟩
        · rintro (⟨e1, e2⟩ | ⟨h1, ⟨e1, e2⟩ | h2⟩)
          · exact Or.inr (Or.inl ⟨e1, e2⟩)
          · exact Or.inl ⟨e1, e2⟩
          · exact Or.inr (Or.inr ⟨h1, h2⟩)

theorem mem_scan (s : Store) (k : Key) (v : Value) :
    (k, v) ∈ Store.scan s ↔ s.get k = some v := by
  induction s with
  | nil => simp [Store.scan, Store.get]
  | cons p rest ih =>
    obtain ⟨a, x⟩ := p
    unfold Store.scan Store.get
    rw [mem_insertBinding a x _ (Increasing_scan rest), ih]
    by_cases h : a = k
    · subst h
      simp
      exact eq_comm
    · have h2 : ¬ k = a := fun e => h e.symm
      simp [h, h2]

theorem inRange_open (k : Key) : inRange emptyKeySubstitute "" k = simpleKey k := by
  unfold inRange simpleKey
  cases hk : k.data with
  | nil => simp [emptyKeySubstitute, keyLt]
  | cons c t =>
    have h0 : minUnicodeRuneValue.toNat = 0 := by decide
    have h1 : emptyKeySubstitute.data = [Char.ofNat 1] := by decide
    have h2 : (Char.ofNat 1).toNat = 1 := by decide
    rw [h1]
    by_cases hc : c = minUnicodeRuneValue
    · subst hc
      simp [keyLt, h0, h2]
    · have hne : c.toNat ≠ 0 := by
        intro e
        exact hc (charToNat_inj _ _ (e.trans h0.symm))
      have hlt : ¬ c.toNat < 1 := by omega
      by_cases he : c.toNat = 1
      · simp [keyLt, h2, he, hc]
      · simp [keyLt, h2, hlt, he, hc]

theorem GetStateByRange_open (ctx : Ctx) (entries : List (Key × Value))
    (h : GetStateByRange ctx "" "" = .ok entries) :
    entries = (ctx.ledger.scan).filter (fun q => simpleKey q.1) := by
  have hv : (validateSimpleKey emptyKeySubstitute && validateSimpleKey "") = true := by decide
  have hf : (fun q : Key × Value => inRange emptyKeySubstitute "" q.1) =
      (fun q : Key × Value => simpleKey q.1) := by
    funext q
    exact inRange_open q.1
  unfold GetStateByRange at h
  simp only [if_true, hv] at h
  rw [hf] at h
  split at h
  · cases h
  · injection h with h
    exact h.symm

theorem appendCars_ok (l : List (Key × Value)) :
    ∀ cars, (∀ q ∈ l, (unmarshalCar q.2).2 = none) →
      appendCars cars l = .ok (cars ++ l.map (fun q => (unmarshalCar q.2).1)) := by
  induction l with
  | nil => intro cars _; simp [appendCars]
  | cons q rest ih =>
    intro cars h
    have hq := h q (List.mem_cons_self _ _)
    have hrest := ih (cars ++ [(unmarshalCar q.2).1])
      (fun r hr => h r (List.mem_cons_of_mem _ hr))
    unfold appendCars
    split
    · rename_i c err heq
      rw [heq] at hq
      cases hq
    · rename_i c heq
      rw [heq] at hrest
      rw [hrest]
      simp [heq]

theorem appendCars_error (l : List (Key × Value)) :
    ∀ cars, (∃ q ∈ l, (unmarshalCar q.2).2 ≠ none) → ∃ err, appendCars cars l = .error err := by
  induction l with
  | nil => intro cars h; obtain ⟨q, hq, _⟩ := h; cases hq
  | cons q rest ih =>
    intro cars h
    unfold appendCars
    split
    · rename_i c err heq
      exact ⟨err, rfl⟩
    · rename_i c heq
      apply ih
      obtain ⟨r, hr, hbad⟩ := h
      rcases List.mem_cons.mp hr with e | hr
      · rw [e, heq] at hbad
        exact absurd rfl hbad
      · exact ⟨r, hr, hbad⟩

/-! ## Lemmas on composite keys -/

theorem append_sep_inj {x : Char} :
    ∀ (l1 l2 r1 r2 : List Char), x ∉ l1 → x ∉ l2 → l1 ++ x :: r1 = l2 ++ x :: r2 →
      l1 = l2 ∧ r1 = r2 := by
  intro l1
  induction l1 with
  | nil =>
    intro l2 r1 r2 _ h2 h
    cases l2 with
    | nil => simpa using h
    | cons b t =>
      simp only [List.nil_append, List.cons_append, List.cons.injEq] at h
      exact absurd (h.1 ▸ List.mem_cons_self _ _) h2
  | cons a t ih =>
    intro l2 r1 r2 h1 h2 h
    cases l2 with
    | nil =>
      simp only [List.nil_append, List.cons_append, List.cons.injEq] at h
      exact absurd (h.1 ▸ List.mem_cons_self _ _) h1
    | cons b u =>
      simp only [List.cons_append, List.cons.injEq] at h
      have ht : x ∉ t := fun hm => h1 (List.mem_cons_of_mem _ hm)
      have hu : x ∉ u := fun hm => h2 (List.mem_cons_of_mem _ hm)
      obtain ⟨e1, e2⟩ := ih u r1 r2 ht hu h.2
      exact ⟨by rw [h.1, e1], e2⟩

theorem not_mem_of_validate {str : String} (h : validateCompositeKeyAttribute str = true) :
    minUnicodeRuneValue ∉ str.data := by
  intro hm
  unfold validateCompositeKeyAttribute at h
  rw [List.all_eq_true] at h
  have := h _ hm
  simp at this

theorem CreateCompositeKey_ok_iff (objectType : String) (attributes : List String) (k : Key) :
    CreateCompositeKey objectType attributes = .ok k ↔
      (validateCompositeKeyAttribute objectType = true ∧
        attributes.all validateCompositeKeyAttribute = true) ∧
      k = ⟨minUnicodeRuneValue ::
            (objectType.data ++ minUnicodeRuneValue :: joinAttributes attributes)⟩ := by
  unfold CreateCompositeKey
  by_cases h : (validateCompositeKeyAttribute objectType &&
      attributes.all validateCompositeKeyAttribute) = true
  · rw [if_pos h]
    rw [Bool.and_eq_true] at h
    constructor
    · intro e
      injection e with e
      exact ⟨h, e.symm⟩
    · rintro ⟨_, e⟩
      rw [e]
  · rw [if_neg h]
    rw [Bool.and_eq_true] at h
    constructor
    · intro e
      cases e
    · rintro ⟨h', _⟩
      exact absurd h' h

/-- A composite key determines its three attributes. -/
theorem CreateCompositeKey_inj {t a b c a' b' c' : String} {k : Key}
    (h : CreateCompositeKey t [a, b, c] = .ok k)
    (h' : CreateCompositeKey t [a', b', c'] = .ok k) : a = a' ∧ b = b' ∧ c = c' := by
  rw [CreateCompositeKey_ok_iff] at h h'
  obtain ⟨⟨_, hv⟩, hk⟩ := h
  obtain ⟨⟨_, hv'⟩, hk'⟩ := h'
  simp only [List.all_cons, List.all_nil, Bool.and_true, Bool.and_eq_true] at hv hv'
  rw [hk] at hk'
  have hk' := congrArg String.data hk'
  simp only [joinAttributes, List.cons.injEq, true_and,
    List.append_cancel_left_eq] at hk'
  obtain ⟨e1, r1⟩ := append_sep_inj _ _ _ _ (not_mem_of_validate hv.1)
    (not_mem_of_validate hv'.1) hk'
  obtain ⟨e2, r2⟩ := append_sep_inj _ _ _ _ (not_mem_of_validate hv.2.1)
    (not_mem_of_validate hv'.2.1) r1
  obtain ⟨e3, _⟩ := append_sep_inj _ _ _ _ (not_mem_of_validate hv.2.2)
    (not_mem_of_validate hv'.2.2) r2
  exact ⟨String.ext e1, String.ext e2, String.ext e3⟩

/-- A composite key is not a simple key. -/
theorem not_simpleKey_of_composite {t : String} {l : List String} {k : Key}
    (h : CreateCompositeKey t l = .ok k) : simpleKey k = false := by
  rw [CreateCompositeKey_ok_iff] at h
  rw [h.2]
  simp [simpleKey]

theorem simpleKey_ne_keyOrEmpty {t : String} {l : List String} {k : Key}
    (h : simpleKey k = true) : k ≠ keyOrEmpty (CreateCompositeKey t l) := by
  intro e
  cases hc : CreateCompositeKey t l with
  | error err =>
    rw [hc] at e
    simp only [keyOrEmpty] at e
    rw [e] at h
    simp [simpleKey] at h
  | ok k2 =>
    rw [hc] at e
    simp only [keyOrEmpty] at e
    rw [e, not_simpleKey_of_composite hc] at h
    cases h

theorem simpleKey_ne_composite {t : String} {l : List String} {k k2 : Key}
    (h : simpleKey k = true) (hc : CreateCompositeKey t l = .ok k2) : k ≠ k2 := by
  intro e
  rw [e, not_simpleKey_of_composite hc] at h
  cases h

theorem simpleKey_car (x : String) : simpleKey ("CAR" ++ x) = true := by
  have h : ("CAR" ++ x).data = 'C' :: 'A' :: 'R' :: x.data := by
    simp [String.data_append]
  unfold simpleKey
  rw [h]
  simp only [decide_eq_true_eq]
  decide

theorem append_left_inj (p a b : String) (h : p ++ a = p ++ b) : a = b := by
  have h2 := congrArg String.data h
  simp only [String.data_append, List.append_cancel_left_eq] at h2
  exact String.ext h2

theorem digitChar_valid (d : Nat) :
    digitChar d ≠ minUnicodeRuneValue ∧ digitChar d ≠ maxUnicodeRuneValue := by
  unfold digitChar
  split <;> exact ⟨by decide, by decide⟩

theorem natDigits_valid (fuel n : Nat) :
    ∀ c ∈ natDigits fuel n, c ≠ minUnicodeRuneValue ∧ c ≠ maxUnicodeRuneValue := by
  induction fuel generalizing n with
  | zero => intro c hc; simp [natDigits] at hc
  | succ f ih =>
    intro c hc
    unfold natDigits at hc
    split at hc
    · simp only [List.mem_singleton] at hc
      rw [hc]; exact digitChar_valid n
    · rw [List.mem_append] at hc
      rcases hc with hc | hc
      · exact ih _ c hc
      · simp only [List.mem_singleton] at hc
        rw [hc]; exact digitChar_valid n

/-- The output of `Itoa` is accepted as a composite-key attribute. -/
theorem validate_Itoa (i : Int) : validateCompositeKeyAttribute (Itoa i) = true := by
  unfold validateCompositeKeyAttribute
  rw [List.all_eq_true]
  intro c hc
  have key : c ≠ minUnicodeRuneValue ∧ c ≠ maxUnicodeRuneValue := by
    cases i with
    | ofNat n => exact natDigits_valid _ _ c hc
    | negSucc n =>
      simp only [Itoa, List.mem_cons] at hc
      rcases hc with hc | hc
      · rw [hc]; exact ⟨by decide, by decide⟩
      · exact natDigits_valid _ _ c hc
  simp [key.1, key.2]

theorem validate_indexName : validateCompositeKeyAttribute indexName = true := by decide

theorem CreateCompositeKey_index_ok (a b c : String)
    (ha : validateCompositeKeyAttribute a = true) (hb : validateCompositeKeyAttribute b = true)
    (hc : validateCompositeKeyAttribute c = true) :
    ∃ key, CreateCompositeKey indexName [a, b, c] = .ok key := by
  refine ⟨_, (CreateCompositeKey_ok_iff _ _ _).mpr ⟨⟨validate_indexName, ?_⟩, rfl⟩⟩
  simp [ha, hb, hc]

/-! ## Lemmas on `float64` -/

theorem float64.lt_finite (x y : Amount) :
    float64.lt (.finite x) (.finite y) = !float64.le (.finite y) (.finite x) := by
  simp only [float64.lt, float64.le, min_comm y.e x.e]
  by_cases h : x.m * 2 ^ (x.e - min x.e y.e).toNat < y.m * 2 ^ (y.e - min x.e y.e).toNat
  · simp [h]
  · simp [h, not_lt.mp h]

/-- Of `a < b` and `a >= b` at most one holds. -/
theorem float64.not_ge_of_lt {a b : float64} (h : a < b) : ¬ a ≥ b := by
  intro h2
  have h1 : float64.lt a b = true := h
  have h3 : float64.le b a = true := h2
  cases a with
  | nan => simp [float64.lt] at h1
  | inf s =>
    cases b with
    | nan => simp [float64.lt] at h1
    | inf t =>
      simp only [float64.lt, float64.le] at h1 h3
      revert h1 h3
      cases s <;> cases t <;> decide
    | finite y =>
      simp only [float64.lt, float64.le] at h1 h3
      rw [h1] at h3
      cases h3
  | finite x =>
    cases b with
    | nan => simp [float64.lt] at h1
    | inf t =>
      simp only [float64.lt, float64.le] at h1 h3
      rw [h3] at h1
      cases h1
    | finite y =>
      rw [float64.lt_finite, h3] at h1
      cases h1

/-- A finite amount that is not `>= b` is `< b`, unless `b` is NaN. -/
theorem float64.lt_of_not_ge {a : Amount} {b : float64} (hb : b ≠ .nan)
    (h : ¬ (a : float64) ≥ b) : (a : float64) < b := by
  have h3 : ¬ float64.le b (.finite a) = true := h
  show float64.lt (.finite a) b = true
  cases b with
  | nan => exact absurd rfl hb
  | inf t =>
    simp only [float64.le] at h3
    simp only [float64.lt]
    cases t <;> simp_all
  | finite y =>
    rw [float64.lt_finite]
    simpa using h3

theorem float64.round_ne_nan (m e : Int) : float64.round m e ≠ .nan := by
  unfold float64.round
  simp only
  split_ifs <;> simp

theorem float64.add_finite_ne_nan {a : float64} (x : Amount) (ha : a ≠ .nan) :
    a + (x : float64) ≠ .nan := by
  show float64.add a (.finite x) ≠ .nan
  cases a with
  | nan => exact absurd rfl ha
  | inf s => simp [float64.add]
  | finite y =>
    simp only [float64.add]
    exact float64.round_ne_nan _ _

theorem float64.finite_sub_ne_nan (x : Amount) {b : float64} (hb : b ≠ .nan) :
    (x : float64) - b ≠ .nan := by
  show float64.sub (.finite x) b ≠ .nan
  cases b with
  | nan => exact absurd rfl hb
  | inf s => simp [float64.sub]
  | finite y =>
    simp only [float64.sub]
    exact float64.round_ne_nan _ _

theorem foldl_add_ne_nan (damages : List Damage) :
    ∀ acc : float64, acc ≠ .nan →
      damages.foldl (fun acc damage => acc + (damage.Price : float64)) acc ≠ .nan := by
  induction damages with
  | nil => intro acc h; simpa using h
  | cons d rest ih =>
    intro acc h
    simp only [List.foldl_cons]
    exact ih _ (float64.add_finite_ne_nan d.Price h)

/-- The sum of the damage prices is a number or an infinity. -/
theorem damagesPrice_ne_nan (damages : List Damage) : damagesPrice damages ≠ .nan := by
  unfold damagesPrice
  apply foldl_add_ne_nan
  exact float64.round_ne_nan _ _


/-! ## Lemmas on the writes -/

theorem PutState_some {ctx : Ctx} {key : Key} (v : Value) (hk : key ≠ "")
    (hr : ctx.refusing key = false) :
    PutState ctx key (some v) = ({ ctx with world := ctx.world.put key v }, none) := by
  simp [PutState, Store.set, hk, hr]

theorem PutState_ok_iff (ctx : Ctx) (key : Key) (v : Option Value) :
    (PutState ctx key v).2 = none ↔ key ≠ "" ∧ ctx.refusing key = false := by
  unfold PutState
  by_cases hk : key = ""
  · simp [hk]
  · cases hr : ctx.refusing key with
    | true => simp [hk]
    | false => simp [hk]

theorem PutState_refused {ctx : Ctx} {key : Key} {v : Option Value}
    (h : (PutState ctx key v).2 ≠ none) : (PutState ctx key v).1 = ctx := by
  unfold PutState at h ⊢
  by_cases hk : key = ""
  · simp [hk]
  · cases hr : ctx.refusing key with
    | true => simp [hk]
    | false => simp [hk, hr] at h

theorem DelState_ok {ctx : Ctx} {key : Key} (hr : ctx.refusing key = false) :
    DelState ctx key = ({ ctx with world := ctx.world.del key }, none) := by
  simp [DelState, hr]

theorem PutState_same (ctx : Ctx) (key : Key) (v : Option Value) :
    (PutState ctx key v).1.ledger = ctx.ledger ∧ (PutState ctx key v).1.failing = ctx.failing ∧
      (PutState ctx key v).1.refusing = ctx.refusing := by
  unfold PutState
  split
  · exact ⟨rfl, rfl, rfl⟩
  · split <;> exact ⟨rfl, rfl, rfl⟩

theorem DelState_same (ctx : Ctx) (key : Key) :
    (DelState ctx key).1.ledger = ctx.ledger ∧ (DelState ctx key).1.failing = ctx.failing ∧
      (DelState ctx key).1.refusing = ctx.refusing := by
  unfold DelState
  split <;> exact ⟨rfl, rfl, rfl⟩

theorem Store.get_set (s : Store) (k k' : Key) (v : Option Value) :
    (Store.set s k v).get k' = if k' = k then v else s.get k' := by
  cases v with
  | some v => simp [Store.set, Store.get_put]
  | none => simp [Store.set, Store.get_del]

theorem PutState_frame {ctx : Ctx} {key k : Key} {v : Option Value} (h : k ≠ key) :
    (PutState ctx key v).1.world.get k = ctx.world.get k := by
  unfold PutState
  split
  · rfl
  · split
    · rfl
    · simp [Store.get_set, h]

theorem DelState_frame {ctx : Ctx} {key k : Key} (h : k ≠ key) :
    (DelState ctx key).1.world.get k = ctx.world.get k := by
  unfold DelState
  split
  · rfl
  · simp [Store.get_del, h]

theorem GetOwnerById_congr {a b : Ctx} (h1 : a.ledger = b.ledger) (h2 : a.failing = b.failing)
    (k : Key) : GetOwnerById a k = GetOwnerById b k := by
  simp [GetOwnerById_eq, GetState, h1, h2]

theorem owner_key_ne_empty (x : String) : "OWNER" ++ x ≠ "" := by
  intro h
  have := congrArg String.data h
  simp at this

theorem simpleKey_ne_empty {k : Key} (h : simpleKey k = true) : k ≠ "" := by
  intro e
  rw [e] at h
  simp [simpleKey] at h

theorem composite_ne_empty {t : String} {l : List String} {k : Key}
    (h : CreateCompositeKey t l = .ok k) : k ≠ "" := by
  rw [CreateCompositeKey_ok_iff] at h
  rw [h.2]
  intro e
  have := congrArg String.data e
  simp at this

/-- `CreateCar` on the empty key returns the error of the shim and writes nothing. -/
theorem CreateCar_empty_key (ctx : Ctx) (make model color owner : String) (price : float64) :
    CreateCar ctx "" make model color owner price =
      (ctx, some "key must not be an empty string") := by
  simp [CreateCar, PutState]


/-! ## Lemmas on the transfer -/

theorem GetOwnerById_error_ne_funds (ctx : Ctx) (x : String) (err : Error)
    (h : GetOwnerById ctx ("OWNER" ++ x) = .error err) :
    err ≠ "new owner does not have enough money to buy this car" := by
  rw [GetOwnerById_eq] at h
  intro e
  subst e
  split at h
  · injection h with h
    have := congrArg String.data h
    simp at this
  · injection h with h
    have := congrArg String.data h
    simp at this
  · cases h

theorem PutState_error_ne_funds (ctx : Ctx) (key : Key) (v : Option Value) :
    (PutState ctx key v).2 ≠ some "new owner does not have enough money to buy this car" := by
  unfold PutState
  split
  · show some "key must not be an empty string" ≠ _
    decide
  · split
    · show some "ledger write failure" ≠ _
      decide
    · simp

theorem settle_error_ne_funds (ctx : Ctx) (carId newOwner : Key) (car : Car) (owner : Owner)
    (price : float64) :
    (settle ctx carId newOwner car owner price).2 ≠
      some "new owner does not have enough money to buy this car" := by
  unfold settle
  simp only
  split
  · intro h
    rename_i err hk
    unfold CreateCompositeKey at hk
    split at hk
    · cases hk
    · injection hk with hk
      injection h with h
      rw [← hk] at h
      revert h
      decide
  · split
    · rename_i ctx3 err heq
      intro h
      have h2 := PutState_error_ne_funds _ _ _ (heq ▸ h)
      exact h2
    · split
      · rename_i err hk
        intro h
        injection h with h
        exact GetOwnerById_error_ne_funds _ _ _ hk h
      · simp

theorem GetOwnerById_of_GetState {ctx : Ctx} {k : Key} {o : Owner}
    (h : GetState ctx k = .ok (some (Value.owner o))) : GetOwnerById ctx k = .ok o := by
  simp [GetOwnerById_eq, h, unmarshalOwner]

theorem GetOwnerById_world (l : Store) (f : Key → Bool) (w : Store) (r : Key → Bool)
    (ctx : Ctx) (k : Key) (hl : l = ctx.ledger) (hf : f = ctx.failing) :
    GetOwnerById ⟨l, f, w, r⟩ k = GetOwnerById ctx k := by
  subst hl
  subst hf
  simp [GetOwnerById_eq, GetState]

/-- A settlement returns no error when the new index key can be built and
written and the record of the relinquishing owner can be read. -/
theorem settle_no_error (ctx : Ctx) (carId newOwner : Key) (c : Car) (n o : Owner)
    (price : float64) (key : Key)
    (hkey : CreateCompositeKey indexName [c.Color, Itoa n.Id, Itoa c.Id] = .ok key)
    (hkw : ctx.refusing key = false)
    (hold : GetOwnerById ctx ("OWNER" ++ c.Owner) = .ok o) :
    (settle ctx carId newOwner c n price).2 = none := by
  unfold settle
  simp only [hkey]
  split
  · rename_i ctx3 err heq
    have h1 := (PutState_ok_iff
      (DelState (PutState ctx carId (some (Value.car { c with Owner := Itoa n.Id }))).1
        (keyOrEmpty (CreateCompositeKey indexName [c.Color, c.Owner, carId]))).1 key
      (some value)).mpr
      ⟨composite_ne_empty hkey, by
        rw [(DelState_same _ _).2.2, (PutState_same _ _ _).2.2]
        exact hkw⟩
    rw [heq] at h1
    cases h1
  · rename_i ctx3 heq
    have hc3 : ctx3.ledger = ctx.ledger ∧ ctx3.failing = ctx.failing := by
      have : ctx3 = (PutState
        (DelState (PutState ctx carId (some (Value.car { c with Owner := Itoa n.Id }))).1
          (keyOrEmpty (CreateCompositeKey indexName [c.Color, c.Owner, carId]))).1 key
        (some value)).1 := by rw [heq]
      rw [this]
      exact ⟨by rw [(PutState_same _ _ _).1, (DelState_same _ _).1, (PutState_same _ _ _).1],
        by rw [(PutState_same _ _ _).2.1, (DelState_same _ _).2.1, (PutState_same _ _ _).2.1]⟩
    have hold2 : GetOwnerById (PutState ctx3 newOwner (marshalOwner n (↑n.Money - price))).1
        ("OWNER" ++ c.Owner) = .ok o := by
      rw [GetOwnerById_congr (b := ctx) (by rw [(PutState_same _ _ _).1, hc3.1])
        (by rw [(PutState_same _ _ _).2.1, hc3.2])]
      exact hold
    rw [hold2]

theorem settle_ok (ctx : Ctx) (carId newOwner : Key) (c : Car) (n o : Owner) (price : float64)
    (key : Key)
    (hcarId : carId ≠ "") (hnewOwner : newOwner ≠ "") (hw : ∀ k, ctx.refusing k = false)
    (hkey : CreateCompositeKey indexName [c.Color, Itoa n.Id, Itoa c.Id] = .ok key)
    (hold : GetOwnerById ctx ("OWNER" ++ c.Owner) = .ok o) :
    settle ctx carId newOwner c n price =
      ({ ctx with world := settled ctx.world carId newOwner c n o price key }, none) := by
  have hkne := composite_ne_empty hkey
  have hone := owner_key_ne_empty c.Owner
  have hold2 : ∀ w r, GetOwnerById ⟨ctx.ledger, ctx.failing, w, r⟩ ("OWNER" ++ c.Owner) = .ok o :=
    fun w r => (GetOwnerById_world _ _ w r ctx _ rfl rfl).trans hold
  simp [settle, hkey, PutState, DelState, hw, hcarId, hnewOwner, hkne, hone, hold2, settled,
    Store.set]

theorem settled_get (w : Store) (carId newOwner : Key) (c : Car) (n o : Owner) (price : float64)
    (key : Key) (hsimple : simpleKey carId = true)
    (hkey : CreateCompositeKey indexName [c.Color, Itoa n.Id, Itoa c.Id] = .ok key)
    (h1 : carId ≠ newOwner) (h2 : carId ≠ "OWNER" ++ c.Owner)
    (h3 : "OWNER" ++ c.Owner ≠ newOwner) :
    (settled w carId newOwner c n o price key).get carId =
        some (Value.car { c with Owner := Itoa n.Id }) ∧
      (settled w carId newOwner c n o price key).get newOwner =
        marshalOwner n ((n.Money : float64) - price) ∧
      (settled w carId newOwner c n o price key).get ("OWNER" ++ c.Owner) =
        marshalOwner o ((o.Money : float64) + price) := by
  have h4 : carId ≠ key := simpleKey_ne_composite hsimple hkey
  have h5 : carId ≠ keyOrEmpty (CreateCompositeKey indexName [c.Color, c.Owner, carId]) :=
    simpleKey_ne_keyOrEmpty hsimple
  have h6 : newOwner ≠ "OWNER" ++ c.Owner := fun e => h3 e.symm
  unfold settled
  refine ⟨?_, ?_, ?_⟩
  · simp only [Store.get_set, Store.get_put, Store.get_del, h1, h2, h4, h5, if_false, if_true]
  · simp only [Store.get_set, h6, if_false, if_true]
  · simp only [Store.get_set, if_true]

theorem settle_frame (ctx : Ctx) (carId newOwner : Key) (c : Car) (n : Owner) (price : float64)
    (k : Key) (h1 : k ≠ carId) (h2 : k ≠ newOwner) (h3 : k ≠ "OWNER" ++ c.Owner)
    (h4 : k ≠ keyOrEmpty (CreateCompositeKey indexName [c.Color, c.Owner, carId]))
    (h5 : k ≠ keyOrEmpty (CreateCompositeKey indexName [c.Color, Itoa n.Id, Itoa c.Id])) :
    (settle ctx carId newOwner c n price).1.world.get k = ctx.world.get k := by
  unfold settle
  simp only
  split
  · exact PutState_frame h1
  · rename_i key hkey
    rw [hkey] at h5
    simp only [keyOrEmpty] at h5
    have hc3 : ∀ ctx3, ctx3 = (PutState
        (DelState (PutState ctx carId (some (Value.car { c with Owner := Itoa n.Id }))).1
          (keyOrEmpty (CreateCompositeKey indexName [c.Color, c.Owner, carId]))).1 key
        (some value)).1 → ctx3.world.get k = ctx.world.get k := by
      intro ctx3 e
      rw [e, PutState_frame h5, DelState_frame h4, PutState_frame h1]
    split
    · rename_i ctx3 err heq
      exact hc3 ctx3 (by rw [heq])
    · rename_i ctx3 heq
      have h6 := hc3 ctx3 (by rw [heq])
      split
      · simp only
        rw [PutState_frame h2, h6]
      · simp only
        rw [PutState_frame h3, PutState_frame h2, h6]

theorem TransferOwnership_of_records (ctx : Ctx) (carId newOwner : Key) (acceptsDamages : Bool)
    (c : Car) (n : Owner)
    (hcar : GetState ctx carId = .ok (some (Value.car c)))
    (hown : GetState ctx newOwner = .ok (some (Value.owner n))) :
    TransferOwnership ctx carId newOwner acceptsDamages =
      if c.Damages.length = 0 ∧ (n.Money : float64) ≥ c.Price then
        settle ctx carId newOwner c n c.Price
      else if c.Damages.length > 0 ∧ acceptsDamages = true then
        if (n.Money : float64) ≥ (c.Price : float64) - damagesPrice c.Damages then
          settle ctx carId newOwner c n ((c.Price : float64) - damagesPrice c.Damages)
        else (ctx, some "new owner does not have enough money to buy this car")
      else if c.Damages.length > 0 ∧ acceptsDamages = false then
        (ctx, some "car has damages and new owner does not want them")
      else if c.Damages.length = 0 ∧ (n.Money : float64) < c.Price then
        (ctx, some "new owner does not have enough money to buy this car")
      else (ctx, none) := by
  simp [TransferOwnership, CarExists_eq, OwnerExists_eq, GetCarById_eq, GetOwnerById_eq, hcar, hown,
    unmarshalCar, unmarshalOwner]

theorem TransferOwnership_cases (ctx : Ctx) (carId newOwner : Key) (acceptsDamages : Bool) :
    (TransferOwnership ctx carId newOwner acceptsDamages).1 = ctx ∨
      ∃ car owner price, GetCarById ctx carId = .ok car ∧ GetOwnerById ctx newOwner = .ok owner ∧
        TransferOwnership ctx carId newOwner acceptsDamages =
          settle ctx carId newOwner car owner price := by
  unfold TransferOwnership
  rcases hce : CarExists ctx carId with ⟨carExists, _ | e⟩
  swap
  · exact Or.inl rfl
  rcases hoe : OwnerExists ctx newOwner with ⟨ownerExists, _ | e⟩
  swap
  · exact Or.inl rfl
  simp only
  split
  · cases hc : GetCarById ctx carId with
    | error e => exact Or.inl rfl
    | ok car =>
      cases ho : GetOwnerById ctx newOwner with
      | error e => exact Or.inl rfl
      | ok owner =>
        simp only
        split
        · exact Or.inr ⟨car, owner, _, rfl, rfl, rfl⟩
        · split
          · split
            · exact Or.inr ⟨car, owner, _, rfl, rfl, rfl⟩
            · exact Or.inl rfl
          · split
            · exact Or.inl rfl
            · split <;> exact Or.inl rfl
  · exact Or.inl rfl


/-! ## Lemmas on the colour change and on index consistency -/

theorem ChangeCarColor_world (ctx : Ctx) (carId : Key) (color : String) (c : Car)
    (oldKey newKey : Key)
    (hcar : GetState ctx carId = .ok (some (Value.car c)))
    (hold : CreateCompositeKey indexName [c.Color, c.Owner, Itoa c.Id] = .ok oldKey)
    (hnew : CreateCompositeKey indexName [color, c.Owner, Itoa c.Id] = .ok newKey)
    (hne : carId ≠ "") (h1 : ctx.refusing carId = false) (h2 : ctx.refusing oldKey = false)
    (h3 : ctx.refusing newKey = false) :
    ChangeCarColor ctx carId color =
      ({ ctx with world :=
          (((ctx.world.put carId (Value.car { c with Color := color })).del oldKey).put
            newKey value) }, none) := by
  have hget : GetCarById ctx carId = .ok c := by
    simp [GetCarById_eq, hcar, unmarshalCar]
  have hkne := composite_ne_empty hnew
  simp [ChangeCarColor, hget, hnew, hold, keyOrEmpty, PutState, DelState, Store.set, hne, h1, h2,
    h3, hkne]

theorem ChangeCarColor_new_key (ctx : Ctx) (carId : Key) (color : String) (c : Car)
    (hcar : GetState ctx carId = .ok (some (Value.car c)))
    (hok : (ChangeCarColor ctx carId color).2 = none) :
    ∃ newKey, CreateCompositeKey indexName [color, c.Owner, Itoa c.Id] = .ok newKey ∧
      carId ≠ "" ∧ ctx.refusing carId = false ∧ ctx.refusing newKey = false := by
  have hget : GetCarById ctx carId = .ok c := by
    simp [GetCarById_eq, hcar, unmarshalCar]
  by_cases hne : carId = ""
  · subst hne
    simp [ChangeCarColor, hget, PutState] at hok
  cases h1 : ctx.refusing carId with
  | true => simp [ChangeCarColor, hget, PutState, hne, h1] at hok
  | false =>
    cases hnew : CreateCompositeKey indexName [color, c.Owner, Itoa c.Id] with
    | error e => simp [ChangeCarColor, hget, hnew, PutState, hne, h1] at hok
    | ok newKey =>
      refine ⟨newKey, rfl, hne, rfl, ?_⟩
      cases h3 : ctx.refusing newKey with
      | false => rfl
      | true =>
        simp only [ChangeCarColor, hget, hnew, PutState_some _ hne h1] at hok
        have hok2 := ((PutState_ok_iff _ _ _).mp hok).2
        rw [(DelState_same _ _).2.2] at hok2
        have hok3 : ctx.refusing newKey = false := hok2
        rw [h3] at hok3
        cases hok3

theorem GetState_of_ChangeCarColor_ok (s : Store) (f : Key → Bool) (carId : Key) (color : String)
    (c : Car) (hcar : s.get carId = some (Value.car c))
    (hok : (ChangeCarColor (Ctx.start s f) carId color).2 = none) :
    GetState (Ctx.start s f) carId = .ok (some (Value.car c)) := by
  cases hf : f carId with
  | true => simp [ChangeCarColor, GetCarById_eq, GetState, Ctx.start, hf] at hok
  | false => simp [GetState, Ctx.start, hf, hcar]


theorem IndexInvariant_of_checks (s : Store)
    (h1 : ∀ p ∈ s, carBindingOk s p = true) (h2 : ∀ p ∈ s, indexBindingOk s p = true) :
    IndexInvariant s := by
  constructor
  · intro k c hk
    have hc := h1 _ (Store.mem_of_get hk)
    simp only [carBindingOk, Bool.and_eq_true, decide_eq_true_eq] at hc
    obtain ⟨⟨hkey, hv1, hv2⟩, hget⟩ := hc
    obtain ⟨ik, hik⟩ := CreateCompositeKey_index_ok c.Color c.Owner (Itoa c.Id) hv1 hv2
      (validate_Itoa _)
    rw [hik] at hget
    exact ⟨hkey, ik, hik, hget⟩
  · intro col own id ik hik hpresent
    cases hv : s.get ik with
    | none => exact absurd hv hpresent
    | some v =>
      have hc := h2 _ (Store.mem_of_get hv)
      simp only [indexBindingOk, Bool.or_eq_true, List.any_eq_true] at hc
      rcases hc with hc | ⟨q, _, hq⟩
      · rw [not_simpleKey_of_composite hik] at hc
        cases hc
      · cases hq2 : q.2 with
        | owner o => rw [hq2] at hq; cases hq
        | marker => rw [hq2] at hq; cases hq
        | car c =>
          rw [hq2] at hq
          simp only [Bool.and_eq_true, decide_eq_true_eq] at hq
          obtain ⟨⟨⟨hv1, hv2⟩, hkey⟩, hget⟩ := hq
          obtain ⟨ik2, hik2⟩ := CreateCompositeKey_index_ok c.Color c.Owner (Itoa c.Id) hv1 hv2
            (validate_Itoa _)
          rw [hik2] at hkey
          simp only [keyOrEmpty] at hkey
          rw [hkey] at hik2
          obtain ⟨e1, e2, e3⟩ := CreateCompositeKey_inj hik hik2
          refine ⟨c, ?_, e3.symm, e1.symm, e2.symm⟩
          rw [e3]
          exact hget

theorem seeded_eq (f : Key → Bool) : after (InitLedger (Ctx.start [] f)) = seeded := rfl

theorem IndexInvariant_seeded : IndexInvariant seeded :=
  IndexInvariant_of_checks seeded (by decide) (by decide)

theorem IndexConsistent_of_invariant {s : Store} (h : IndexInvariant s) : IndexConsistent s := by
  obtain ⟨hA, hB⟩ := h
  refine ⟨?_, ?_⟩
  · intro k c hk
    obtain ⟨hkey, hentry⟩ := hA k c hk
    refine ⟨hentry, ?_⟩
    intro col own ik hik hpresent
    obtain ⟨c2, hc2, _, hcol, hown⟩ := hB col own _ ik hik hpresent
    rw [← hkey, hk] at hc2
    injection hc2 with hc2
    injection hc2 with hc2
    rw [hc2]
    exact ⟨hcol.symm, hown.symm⟩
  · intro col own id ik hik hpresent
    obtain ⟨c, hc, h1, h2, h3⟩ := hB col own id ik hik hpresent
    exact ⟨_, c, hc, h1, h2, h3⟩

theorem IndexInvariant_colour (s : Store) (f : Key → Bool) (carId : Key) (color : String)
    (c : Car) (hinv : IndexInvariant s) (hcar : s.get carId = some (Value.car c))
    (hok : (ChangeCarColor (Ctx.start s f) carId color).2 = none) :
    IndexInvariant (after (ChangeCarColor (Ctx.start s f) carId color)) := by
  obtain ⟨hA, hB⟩ := hinv
  obtain ⟨hkey, oldKey, hold, _⟩ := hA carId c hcar
  have hst := GetState_of_ChangeCarColor_ok s f carId color c hcar hok
  obtain ⟨newKey, hnew, _, _, _⟩ := ChangeCarColor_new_key _ _ _ _ hst hok
  have hsimple : simpleKey carId = true := by rw [hkey]; exact simpleKey_car _
  have h1 : carId ≠ newKey := simpleKey_ne_composite hsimple hnew
  have h2 : carId ≠ oldKey := simpleKey_ne_composite hsimple hold
  have hw : ∀ k, (after (ChangeCarColor (Ctx.start s f) carId color)).get k =
      if k = newKey then some Value.marker
      else if k = oldKey then none
      else if k = carId then some (Value.car { c with Color := color })
      else s.get k := by
    intro k
    rw [ChangeCarColor_world _ _ _ _ _ _ hst hold hnew (simpleKey_ne_empty hsimple) rfl rfl rfl]
    simp only [after, Ctx.start, Store.get_put, Store.get_del, value]
  constructor
  · intro k c2 hk
    rw [hw] at hk
    by_cases e1 : k = newKey
    · simp [e1] at hk
    by_cases e2 : k = oldKey
    · rw [if_neg e1, if_pos e2] at hk
      cases hk
    by_cases e3 : k = carId
    · rw [if_neg e1, if_neg e2, if_pos e3] at hk
      injection hk with hk
      injection hk with hk
      subst hk
      refine ⟨by rw [e3]; exact hkey, newKey, hnew, ?_⟩
      rw [hw]
      simp
    · simp only [e1, e2, e3, if_false] at hk
      obtain ⟨hk2, ik2, hik2, hget2⟩ := hA k c2 hk
      refine ⟨hk2, ik2, hik2, ?_⟩
      rw [hw]
      by_cases e4 : ik2 = newKey
      · simp [e4]
      by_cases e5 : ik2 = oldKey
      · exfalso
        rw [e5] at hik2
        obtain ⟨_, _, e⟩ := CreateCompositeKey_inj hik2 hold
        apply e3
        rw [hk2, hkey, e]
      have e6 : ik2 ≠ carId := fun e => simpleKey_ne_composite hsimple hik2 e.symm
      simp only [e4, e5, e6, if_false]
      exact hget2
  · intro col own id ik hik hpresent
    rw [hw] at hpresent
    by_cases e1 : ik = newKey
    · rw [e1] at hik
      obtain ⟨ea, eb, ec⟩ := CreateCompositeKey_inj hik hnew
      refine ⟨{ c with Color := color }, ?_, ec.symm, ea.symm, eb.symm⟩
      rw [hw, ec, ← hkey]
      simp [h1, h2]
    by_cases e2 : ik = oldKey
    · rw [if_neg e1, if_pos e2] at hpresent
      exact absurd rfl hpresent
    have e3 : ik ≠ carId := fun e => simpleKey_ne_composite hsimple hik e.symm
    simp only [e1, e2, e3, if_false] at hpresent
    obtain ⟨c3, hc3, h31, h32, h33⟩ := hB col own id ik hik hpresent
    by_cases e4 : "CAR" ++ id = carId
    · exfalso
      rw [e4, hcar] at hc3
      injection hc3 with hc3
      injection hc3 with hc3
      subst hc3
      rw [← h31, ← h32, ← h33, hold] at hik
      injection hik with hik
      exact e2 hik.symm
    · have e5 : "CAR" ++ id ≠ newKey := simpleKey_ne_composite (simpleKey_car _) hnew
      have e6 : "CAR" ++ id ≠ oldKey := simpleKey_ne_composite (simpleKey_car _) hold
      refine ⟨c3, ?_, h31, h32, h33⟩
      rw [hw]
      simp only [e4, e5, e6, if_false]
      exact hc3

theorem IndexInvariant_reachable {s : Store} (h : ColourReachable s) : IndexInvariant s := by
  induction h with
  | init f _ =>
    rw [seeded_eq]
    exact IndexInvariant_seeded
  | colour s f carId color c _ hcar hok ih =>
    exact IndexInvariant_colour s f carId color c ih hcar hok


theorem ChangeCarColor_ok_inv (ctx : Ctx) (carId : Key) (color : String)
    (hw : ∀ k, ctx.refusing k = false)
    (hok : (ChangeCarColor ctx carId color).2 = none) :
    ∃ v newKey, GetState ctx carId = .ok (some v) ∧
      CreateCompositeKey indexName
        [color, (unmarshalCar v).1.Owner, Itoa (unmarshalCar v).1.Id] = .ok newKey ∧
      ChangeCarColor ctx carId color =
        ({ ctx with world :=
            (((ctx.world.put carId (Value.car { (unmarshalCar v).1 with Color := color })).del
              (keyOrEmpty (CreateCompositeKey indexName
                [(unmarshalCar v).1.Color, (unmarshalCar v).1.Owner,
                  Itoa (unmarshalCar v).1.Id]))).put newKey value) }, none) := by
  cases hs : GetState ctx carId with
  | error e => simp [ChangeCarColor, GetCarById_eq, hs] at hok
  | ok r =>
    cases r with
    | none => simp [ChangeCarColor, GetCarById_eq, hs] at hok
    | some v =>
      by_cases hne : carId = ""
      · subst hne
        simp [ChangeCarColor, GetCarById_eq, hs, PutState] at hok
      cases hnew : CreateCompositeKey indexName
          [color, (unmarshalCar v).1.Owner, Itoa (unmarshalCar v).1.Id] with
      | error e => simp [ChangeCarColor, GetCarById_eq, hs, hnew, PutState, hne, hw] at hok
      | ok newKey =>
        refine ⟨v, newKey, rfl, hnew, ?_⟩
        have hkne := composite_ne_empty hnew
        simp [ChangeCarColor, GetCarById_eq, hs, hnew, PutState, DelState, Store.set, hne, hw, hkne]


/-! ## Lemmas on the world states the contract produces -/

theorem WellFormed_PutState {ctx : Ctx} {key : Key} {v : Option Value}
    (h : WellFormed ctx.world)
    (hv : ∀ c, v = some (Value.car c) → c.Damages ≠ [] →
      simpleKey key = true ∧ validateCompositeKeyAttribute c.Color = true) :
    WellFormed (PutState ctx key v).1.world := by
  unfold PutState
  split
  · exact h
  · rename_i hk
    split
    · exact h
    · refine ⟨?_, ?_⟩
      · have hk2 : ¬ "" = key := fun e => hk e.symm
        simp only [Store.get_set, hk2, if_false]
        exact h.1
      · intro k c hget hd
        simp only [Store.get_set] at hget
        split at hget
        · rename_i e
          rw [e]
          exact hv c hget hd
        · exact h.2 k c hget hd

theorem WellFormed_DelState {ctx : Ctx} {key : Key} (h : WellFormed ctx.world) :
    WellFormed (DelState ctx key).1.world := by
  unfold DelState
  split
  · exact h
  · refine ⟨?_, ?_⟩
    · simp only [Store.get_del]
      split
      · rfl
      · exact h.1
    · intro k c hget hd
      simp only [Store.get_del] at hget
      split at hget
      · cases hget
      · exact h.2 k c hget hd

theorem marshalOwner_ne_car (o : Owner) (m : float64) (c : Car) :
    marshalOwner o m ≠ some (Value.car c) := by
  unfold marshalOwner
  split <;> simp

theorem marshalCar_damages {car : Car} {price : float64} {c : Car}
    (h : marshalCar car price = some (Value.car c)) : c.Damages = car.Damages := by
  unfold marshalCar at h
  split at h
  · injection h with h
    injection h with h
    rw [← h]
  · cases h

/-- The car `GetCarById` decodes has damages only when the ledger holds a car
record, which is then that car. -/
theorem decoded_car_ok {ctx : Ctx} {carId : Key} {car : Car} (hl : WellFormed ctx.ledger)
    (hc : GetCarById ctx carId = .ok car) (hd : car.Damages ≠ []) :
    simpleKey carId = true ∧ validateCompositeKeyAttribute car.Color = true := by
  rw [GetCarById_eq] at hc
  cases hs : GetState ctx carId with
  | error e => simp [hs] at hc
  | ok r =>
    cases r with
    | none => simp [hs] at hc
    | some v =>
      simp only [hs] at hc
      injection hc with hc
      cases v with
      | car c =>
        simp only [unmarshalCar] at hc
        subst hc
        exact hl.2 carId c (GetState_ledger hs).2 hd
      | owner o =>
        simp only [unmarshalCar] at hc
        subst hc
        exact absurd rfl hd
      | marker =>
        simp only [unmarshalCar] at hc
        subst hc
        exact absurd rfl hd

theorem WellFormed_settle (ctx : Ctx) (carId newOwner : Key) (car : Car) (owner : Owner)
    (price : float64) (hw : WellFormed ctx.world)
    (hcar : car.Damages ≠ [] →
      simpleKey carId = true ∧ validateCompositeKeyAttribute car.Color = true) :
    WellFormed (settle ctx carId newOwner car owner price).1.world := by
  have h1 : WellFormed
      (PutState ctx carId (some (Value.car { car with Owner := Itoa owner.Id }))).1.world := by
    apply WellFormed_PutState hw
    intro c hc hd
    injection hc with hc
    injection hc with hc
    subst hc
    exact hcar hd
  unfold settle
  simp only
  split
  · exact h1
  · rename_i key hkey
    have h3 : WellFormed (PutState
        (DelState (PutState ctx carId (some (Value.car { car with Owner := Itoa owner.Id }))).1
          (keyOrEmpty (CreateCompositeKey indexName [car.Color, car.Owner, carId]))).1 key
        (some value)).1.world := by
      apply WellFormed_PutState (WellFormed_DelState h1)
      intro c hc
      cases hc
    split
    · rename_i ctx3 err heq
      rw [heq] at h3
      exact h3
    · rename_i ctx3 heq
      rw [heq] at h3
      have h4 : WellFormed
          (PutState ctx3 newOwner (marshalOwner owner (↑owner.Money - price))).1.world := by
        apply WellFormed_PutState h3
        intro c hc
        exact absurd hc (marshalOwner_ne_car _ _ _)
      split
      · exact h4
      · simp only
        apply WellFormed_PutState h4
        intro c hc
        exact absurd hc (marshalOwner_ne_car _ _ _)

theorem WellFormed_TransferOwnership (ctx : Ctx) (carId newOwner : Key) (acceptsDamages : Bool)
    (hl : WellFormed ctx.ledger) (hw : WellFormed ctx.world) :
    WellFormed (TransferOwnership ctx carId newOwner acceptsDamages).1.world := by
  rcases TransferOwnership_cases ctx carId newOwner acceptsDamages with h | h
  · rw [h]
    exact hw
  · obtain ⟨car, owner, price, hc, _, hT⟩ := h
    rw [hT]
    exact WellFormed_settle ctx carId newOwner car owner price hw (decoded_car_ok hl hc)

theorem WellFormed_ChangeCarColor (ctx : Ctx) (carId : Key) (color : String)
    (hl : WellFormed ctx.ledger) (hw : WellFormed ctx.world)
    (hok : (ChangeCarColor ctx carId color).2 = none) :
    WellFormed (ChangeCarColor ctx carId color).1.world := by
  unfold ChangeCarColor at hok ⊢
  cases hc : GetCarById ctx carId with
  | error e => simp [hc] at hok
  | ok car =>
    simp only [hc] at hok ⊢
    cases hkey : CreateCompositeKey indexName [color, car.Owner, Itoa car.Id] with
    | error e =>
      simp only [hkey] at hok
      split at hok <;> simp at hok
    | ok key =>
      have hcol : validateCompositeKeyAttribute color = true := by
        have := ((CreateCompositeKey_ok_iff _ _ _).mp hkey).1.2
        simp only [List.all_cons, List.all_nil, Bool.and_true, Bool.and_eq_true] at this
        exact this.1
      have h1 : WellFormed
          (PutState ctx carId (some (Value.car { car with Color := color }))).1.world := by
        apply WellFormed_PutState hw
        intro c hcc hd
        injection hcc with hcc
        injection hcc with hcc
        subst hcc
        exact ⟨(decoded_car_ok hl hc hd).1, hcol⟩
      simp only [hkey] at hok ⊢
      split
      · rename_i ctx1 err heq
        rw [heq] at h1
        exact h1
      · rename_i ctx1 heq
        rw [heq] at h1
        apply WellFormed_PutState (WellFormed_DelState h1)
        intro c hcc
        cases hcc

theorem WellFormed_CreateCar (ctx : Ctx) (carNumber : Key) (make model color owner : String)
    (price : float64) (hw : WellFormed ctx.world) :
    WellFormed (CreateCar ctx carNumber make model color owner price).1.world := by
  unfold CreateCar
  apply WellFormed_PutState hw
  intro c hc hd
  exact absurd (marshalCar_damages hc) hd

theorem WellFormed_DeleteCar (ctx : Ctx) (carId : Key) (hw : WellFormed ctx.world) :
    WellFormed (DeleteCar ctx carId).1.world := by
  unfold DeleteCar
  split
  · exact hw
  · split
    · exact hw
    · exact WellFormed_DelState hw

theorem WellFormed_putCars (l : List Car)
    (hl : ∀ car ∈ l, validateCompositeKeyAttribute car.Color = true) :
    ∀ ctx : Ctx, WellFormed ctx.world → WellFormed (putCars ctx l).1.world := by
  induction l with
  | nil => intro ctx hw; exact hw
  | cons car rest ih =>
    intro ctx hw
    have h1 : WellFormed
        (PutState ctx ("CAR" ++ Itoa car.Id) (some (Value.car car))).1.world := by
      apply WellFormed_PutState hw
      intro c hc _
      injection hc with hc
      injection hc with hc
      subst hc
      exact ⟨simpleKey_car _, hl _ (List.mem_cons_self _ _)⟩
    unfold putCars
    split
    · rename_i ctx1 err heq
      rw [heq] at h1
      exact h1
    · rename_i ctx1 heq
      rw [heq] at h1
      split
      · exact h1
      · rename_i key hkey
        have h2 : WellFormed (PutState ctx1 key (some value)).1.world := by
          apply WellFormed_PutState h1
          intro c hc
          cases hc
        split
        · rename_i ctx2 err heq2
          rw [heq2] at h2
          exact h2
        · rename_i ctx2 heq2
          rw [heq2] at h2
          exact ih (fun c hc => hl c (List.mem_cons_of_mem _ hc)) ctx2 h2

theorem WellFormed_putOwners (l : List Owner) :
    ∀ ctx : Ctx, WellFormed ctx.world → WellFormed (putOwners ctx l).1.world := by
  induction l with
  | nil => intro ctx hw; exact hw
  | cons owner rest ih =>
    intro ctx hw
    have h1 : WellFormed
        (PutState ctx ("OWNER" ++ Itoa owner.Id) (some (Value.owner owner))).1.world := by
      apply WellFormed_PutState hw
      intro c hc
      cases hc
    unfold putOwners
    split
    · rename_i ctx1 err heq
      rw [heq] at h1
      exact h1
    · rename_i ctx1 heq
      rw [heq] at h1
      exact ih ctx1 h1

theorem WellFormed_InitLedger (ctx : Ctx) (hw : WellFormed ctx.world) :
    WellFormed (InitLedger ctx).1.world := by
  have h1 := WellFormed_putCars cars (by decide) ctx hw
  unfold InitLedger
  split
  · rename_i ctx1 err heq
    rw [heq] at h1
    exact h1
  · rename_i ctx1 heq
    rw [heq] at h1
    exact WellFormed_putOwners owners ctx1 h1

theorem WellFormed_nil : WellFormed [] :=
  ⟨rfl, fun k c h => by simp [Store.get] at h⟩

/-- Every world state the contract produces is well formed. -/
theorem WellFormed_of_committed {s : Store} (h : Committed s) : WellFormed s := by
  induction h with
  | init f r _ => exact WellFormed_InitLedger _ WellFormed_nil
  | create s f r carNumber make model color owner price _ _ ih =>
    exact WellFormed_CreateCar _ _ _ _ _ _ _ ih
  | colour s f r carId color _ hok ih =>
    exact WellFormed_ChangeCarColor _ _ _ ih ih hok
  | transfer s f r carId newOwner acceptsDamages _ _ ih =>
    exact WellFormed_TransferOwnership _ _ _ _ ih ih
  | delete s f r carId _ _ ih =>
    exact WellFormed_DeleteCar _ _ ih

theorem Committed_seeded : Committed seeded :=
  Committed.init noFailure (fun _ => false) (by decide)

theorem Committed_create {s : Store} (h : Committed s) (carNumber : Key)
    (make model color owner : String) (price : float64)
    (hok : (CreateCar (Ctx.start s noFailure) carNumber make model color owner price).2 = none) :
    Committed (after (CreateCar (Ctx.start s noFailure) carNumber make model color owner price)) :=
  Committed.create s noFailure (fun _ => false) carNumber make model color owner price h hok

theorem Committed_transfer {s : Store} (h : Committed s) (carId newOwner : Key)
    (acceptsDamages : Bool)
    (hok : (TransferOwnership (Ctx.start s noFailure) carId newOwner acceptsDamages).2 = none) :
    Committed (after (TransferOwnership (Ctx.start s noFailure) carId newOwner acceptsDamages)) :=
  Committed.transfer s noFailure (fun _ => false) carId newOwner acceptsDamages h hok


/-! ## The transfer: conservation, rejection, index (C1 to C4) -/

/-- C1 (money conservation), evaluated where the acquiring owner is the current
owner.  After `InitLedger`, `"CAR1"` belongs to owner `"1"`, whose record is
under `"OWNER1"` with balance 80000.  `TransferOwnership("CAR1", "OWNER1",
true)` returns no error.  It writes the debited record (76000) under
`"OWNER1"`, reads the committed record (80000) for the relinquishing owner and
writes it back credited: the balance under `"OWNER1"` ends at 84000, and the
sum of the balances under `newOwner` and under `"OWNER" + car.Owner` goes from
160000 to 168000. -/
theorem transfer_to_current_owner_adds_money :
    seeded.get "CAR1" =
        some (Value.car ⟨1, "Toyota", "Prius", "blue", "1", [⟨"Bad engine", 1000⟩], 5000⟩) ∧
      seeded.get "OWNER1" =
        some (Value.owner ⟨1, "Marko", "Markovic", "markonikolic@gmail.com", 80000⟩) ∧
      (TransferOwnership (Ctx.start seeded noFailure) "CAR1" "OWNER1" true).2 = none ∧
      balance seeded "OWNER1" + balance seeded ("OWNER" ++ "1") = 160000 ∧
      balance (after (TransferOwnership (Ctx.start seeded noFailure) "CAR1" "OWNER1" true))
          "OWNER1" +
        balance (after (TransferOwnership (Ctx.start seeded noFailure) "CAR1" "OWNER1" true))
          ("OWNER" ++ "1") = 168000 := by
  decide

/-- C2 (reject before any write), amended.  If `TransferOwnership` returns an
error while, for the car and the acquiring owner it decodes, the new index key
can be built, its write is not refused, and the lookup of `"OWNER" + car.Owner`
succeeds, then it hands back the context it was given: no `PutState` and no
`DelState` was performed. -/
theorem transfer_error_before_write (ctx : Ctx) (carId newOwner : Key) (acceptsDamages : Bool)
    (herr : (TransferOwnership ctx carId newOwner acceptsDamages).2 ≠ none)
    (hsettle : ∀ car owner, GetCarById ctx carId = .ok car →
      GetOwnerById ctx newOwner = .ok owner →
      (∃ key, CreateCompositeKey indexName [car.Color, Itoa owner.Id, Itoa car.Id] = .ok key ∧
        ctx.refusing key = false) ∧
        (∃ oldOwner, GetOwnerById ctx ("OWNER" ++ car.Owner) = .ok oldOwner)) :
    (TransferOwnership ctx carId newOwner acceptsDamages).1 = ctx := by
  unfold TransferOwnership at herr ⊢
  rcases hce : CarExists ctx carId with ⟨carExists, _ | e⟩
  swap
  · simp
  rcases hoe : OwnerExists ctx newOwner with ⟨ownerExists, _ | e⟩
  swap
  · simp
  · simp only [hce, hoe] at herr ⊢
    split
    · cases hc : GetCarById ctx carId with
      | error e => simp
      | ok car =>
        cases ho : GetOwnerById ctx newOwner with
        | error e => simp
        | ok owner =>
          obtain ⟨⟨key, hkey, hkw⟩, ⟨oldOwner, hold⟩⟩ := hsettle car owner hc ho
          rename_i hif
          simp only [hif, if_true, hc, ho] at herr ⊢
          have hs : ∀ price, (settle ctx carId newOwner car owner price).2 = none := by
            intro price
            exact settle_no_error ctx carId newOwner car owner oldOwner price key hkey hkw hold
          split
          · rename_i h1
            rw [if_pos h1] at herr
            exact absurd (hs _) herr
          · rename_i h1
            rw [if_neg h1] at herr
            split
            · rename_i h2
              rw [if_pos h2] at herr
              split
              · rename_i h3
                simp only [h3, if_true] at herr
                exact absurd (hs _) herr
              · rfl
            · split
              · rfl
              · split <;> rfl
    · rfl

/-- C2, amended, at an instance: after `InitLedger`, `TransferOwnership("CAR1",
"OWNER2", false)` returns an error and has written nothing. -/
theorem transfer_error_before_write_witness :
    (TransferOwnership (Ctx.start seeded noFailure) "CAR1" "OWNER2" false).2 ≠ none ∧
      (TransferOwnership (Ctx.start seeded noFailure) "CAR1" "OWNER2" false).1 =
        Ctx.start seeded noFailure :=
  ⟨by decide,
    transfer_error_before_write (Ctx.start seeded noFailure) "CAR1" "OWNER2" false (by decide)
      (fun car owner hc ho => by
        have e1 : Except.ok (ε := Error)
            (⟨1, "Toyota", "Prius", "blue", "1", [⟨"Bad engine", 1000⟩], 5000⟩ : Car) =
            Except.ok car := hc
        have e2 : Except.ok (ε := Error)
            (⟨2, "Nikola", "Kajtes", "nikolakajtes@gmail.com", 100000⟩ : Owner) =
            Except.ok owner := ho
        injection e1 with e1
        injection e2 with e2
        subst e1
        subst e2
        exact ⟨⟨_, rfl, rfl⟩, ⟨_, rfl⟩⟩)⟩

/-- C2 as stated fails.  On the seeded ledger extended by `CreateCar("CAR7", ...,
"red", "9", 100)`, `TransferOwnership("CAR7", "OWNER1", true)` returns an error
(owner `"OWNER9"` does not exist) after it has rewritten the car record and
debited `"OWNER1"`.  On the seeded ledger extended by a car 7 whose colour is
`U+0000`, `TransferOwnership("CAR7", "OWNER2", true)` returns an error (the new
index key cannot be built) after it has rewritten the car record.  On the
seeded ledger, when the write of the index key of (blue, "2", "1") is refused,
`TransferOwnership("CAR1", "OWNER2", true)` returns the error of that write
after it has rewritten the car record. -/
theorem transfer_error_after_write :
    ((TransferOwnership (Ctx.start orphanLedger noFailure) "CAR7" "OWNER1" true).2 ≠ none ∧
      orphanLedger.get "CAR7" = some (Value.car ⟨0, "Fiat", "Uno", "red", "9", [], 100⟩) ∧
      (after (TransferOwnership (Ctx.start orphanLedger noFailure) "CAR7" "OWNER1" true)).get
          "CAR7" = some (Value.car ⟨0, "Fiat", "Uno", "red", "1", [], 100⟩) ∧
      balance orphanLedger "OWNER1" = 80000 ∧
      balance (after (TransferOwnership (Ctx.start orphanLedger noFailure) "CAR7" "OWNER1" true))
          "OWNER1" = 79900) ∧
    ((TransferOwnership (Ctx.start nulColourLedger noFailure) "CAR7" "OWNER2" true).2 ≠ none ∧
      nulColourLedger.get "CAR7" = some (Value.car ⟨0, "Fiat", "Uno", "\x00", "1", [], 100⟩) ∧
      (after (TransferOwnership (Ctx.start nulColourLedger noFailure) "CAR7" "OWNER2" true)).get
          "CAR7" = some (Value.car ⟨0, "Fiat", "Uno", "\x00", "2", [], 100⟩)) ∧
    ((TransferOwnership
        ((Ctx.start seeded noFailure).refuse
          (refusingOnly (keyOrEmpty (CreateCompositeKey indexName ["blue", "2", "1"]))))
        "CAR1" "OWNER2" true).2 ≠ none ∧
      seeded.get "CAR1" =
        some (Value.car ⟨1, "Toyota", "Prius", "blue", "1", [⟨"Bad engine", 1000⟩], 5000⟩) ∧
      (after (TransferOwnership
        ((Ctx.start seeded noFailure).refuse
          (refusingOnly (keyOrEmpty (CreateCompositeKey indexName ["blue", "2", "1"]))))
        "CAR1" "OWNER2" true)).get "CAR1" =
        some (Value.car ⟨1, "Toyota", "Prius", "blue", "2", [⟨"Bad engine", 1000⟩], 5000⟩)) := by
  decide

/-- C3 (index entry moves on transfer), evaluated at the claim's own witness.
After `InitLedger`, `TransferOwnership("CAR1", "OWNER2", true)` returns no
error and writes the entry for (blue, "2", "1"), but the entry for
(blue, "1", "1") is still present: the key it deletes is the one built from
the attribute `carId`, (blue, "1", "CAR1"), which was never written. -/
theorem transfer_leaves_old_index_entry :
    (TransferOwnership (Ctx.start seeded noFailure) "CAR1" "OWNER2" true).2 = none ∧
      seeded.get (keyOrEmpty (CreateCompositeKey indexName ["blue", "1", "1"])) =
        some Value.marker ∧
      (after (TransferOwnership (Ctx.start seeded noFailure) "CAR1" "OWNER2" true)).get
          (keyOrEmpty (CreateCompositeKey indexName ["blue", "2", "1"])) = some Value.marker ∧
      (after (TransferOwnership (Ctx.start seeded noFailure) "CAR1" "OWNER2" true)).get
          (keyOrEmpty (CreateCompositeKey indexName ["blue", "1", "1"])) = some Value.marker ∧
      seeded.get (keyOrEmpty (CreateCompositeKey indexName ["blue", "1", "CAR1"])) = none := by
  decide

/-- C4 (index consistency), amended.  In every world state reached from the
empty ledger by `InitLedger` followed by any finite sequence of successful
`ChangeCarColor` invocations on keys holding car records, every car record has
its index entry for its current (color, owner, id), has no other index entry
under its id, and every index entry is the entry of a car record that
currently has that colour and owner. -/
theorem index_consistent_after_colour_changes (s : Store) (h : ColourReachable s) :
    IndexConsistent s :=
  IndexConsistent_of_invariant (IndexInvariant_reachable h)

/-- C4, amended, at an instance: the world state after `InitLedger` and
`ChangeCarColor("CAR3", "red")` is index consistent. -/
theorem index_consistent_after_colour_changes_witness :
    IndexConsistent (after (ChangeCarColor (Ctx.start seeded noFailure) "CAR3" "red")) :=
  index_consistent_after_colour_changes _
    (ColourReachable.colour seeded noFailure "CAR3" "red"
      ⟨3, "Hyundai", "Tucson", "green", "2", [⟨"Eletronic failure", 800⟩], 2500⟩
      (ColourReachable.init noFailure (by decide)) (by decide) (by decide))

/-- C4 as stated fails.  `orphanLedger` is reached by `InitLedger` and one
`CreateCar`, which writes the record of car 7 and no index entry: the record
under `"CAR7"` has no index entry.  The world state after `InitLedger` and
`ChangeCarColor("OWNER1", "red")` holds a car record under `"OWNER1"`, decoded
from the owner record, with `Id` 1 and index entry (red, "", "1"): the car
under `"CAR1"`, blue and owned by "1", then has a second index entry under its
id. -/
theorem index_not_consistent_after_create :
    (Reachable orphanLedger ∧ ¬ IndexConsistent orphanLedger) ∧
    (Reachable (after (ChangeCarColor (Ctx.start seeded noFailure) "OWNER1" "red")) ∧
      ¬ IndexConsistent (after (ChangeCarColor (Ctx.start seeded noFailure) "OWNER1" "red"))) := by
  refine ⟨⟨?_, ?_⟩, ⟨?_, ?_⟩⟩
  · exact Reachable.create seeded noFailure "CAR7" "Fiat" "Uno" "red" "9" 100
      (Reachable.init noFailure (by decide)) (by decide)
  · intro h
    obtain ⟨⟨ik, hik, hget⟩, _⟩ := h.1 "CAR7" ⟨0, "Fiat", "Uno", "red", "9", [], 100⟩ (by decide)
    have e : CreateCompositeKey indexName ["red", "9", Itoa 0] =
        .ok (keyOrEmpty (CreateCompositeKey indexName ["red", "9", Itoa 0])) := rfl
    rw [e] at hik
    injection hik with hik
    rw [← hik] at hget
    revert hget
    decide
  · exact Reachable.colour seeded noFailure "OWNER1" "red"
      (Reachable.init noFailure (by decide)) (by decide)
  · intro h
    have h2 := (h.1 "CAR1" ⟨1, "Toyota", "Prius", "blue", "1", [⟨"Bad engine", 1000⟩], 5000⟩
      (by decide)).2 "red" "" (keyOrEmpty (CreateCompositeKey indexName ["red", "", Itoa 1]))
      rfl (by decide)
    revert h2
    decide

/-! ## The decision table of the transfer (C5 to C9) -/

/-- C5 (damages not accepted).  When `carId` holds a car with at least one
damage and `newOwner` holds an owner record, `TransferOwnership(carId,
newOwner, false)` returns the error "car has damages and new owner does not
want them" and hands back the transaction context it was given: nothing was
written, whatever the balance of the acquiring owner is. -/
theorem transfer_damages_not_accepted (ctx : Ctx) (carId newOwner : Key) (c : Car) (n : Owner)
    (hcar : GetState ctx carId = .ok (some (Value.car c)))
    (hdam : c.Damages ≠ [])
    (hown : GetState ctx newOwner = .ok (some (Value.owner n))) :
    TransferOwnership ctx carId newOwner false =
      (ctx, some "car has damages and new owner does not want them") := by
  have hlen : ¬ c.Damages.length = 0 := by
    intro h
    exact hdam (List.length_eq_zero.mp h)
  have hpos : c.Damages.length > 0 := Nat.pos_of_ne_zero hlen
  simp [TransferOwnership, CarExists_eq, OwnerExists_eq, GetCarById_eq, GetOwnerById_eq, hcar, hown,
    unmarshalCar, unmarshalOwner, hlen, hpos]

/-- C5 at the instance of the specification: after `InitLedger`,
`TransferOwnership("CAR1", "OWNER2", false)`. -/
theorem transfer_damages_not_accepted_witness :
    GetState (Ctx.start seeded noFailure) "CAR1" =
        .ok (some (Value.car ⟨1, "Toyota", "Prius", "blue", "1", [⟨"Bad engine", 1000⟩], 5000⟩)) ∧
      GetState (Ctx.start seeded noFailure) "OWNER2" =
        .ok (some (Value.owner ⟨2, "Nikola", "Kajtes", "nikolakajtes@gmail.com", 100000⟩)) ∧
      TransferOwnership (Ctx.start seeded noFailure) "CAR1" "OWNER2" false =
        (Ctx.start seeded noFailure, some "car has damages and new owner does not want them") :=
  ⟨rfl, rfl, transfer_damages_not_accepted (Ctx.start seeded noFailure) "CAR1" "OWNER2" _ _
    rfl (by decide) rfl⟩


/-- C6 (settlement with accepted damages), amended.  In every world state `s`
the contract produces, when no write is refused: if `carId` holds a car `c`
with a non-empty damage list, `newOwner` holds an owner `n`, `"OWNER" +
c.Owner` holds an owner `o` under a key different from `newOwner`, and
`n.Money >= c.Price - damagesPrice c.Damages`, then `TransferOwnership(carId,
newOwner, true)` returns no error and afterwards `carId` holds `c` with only
`Owner` replaced by `Itoa n.Id`, `newOwner` holds what `json.Marshal` gives for
`n` with `Money` set to `n.Money - (c.Price - damagesPrice c.Damages)`, and
`"OWNER" + c.Owner` holds what it gives for `o` with `Money` set to `o.Money +
(c.Price - damagesPrice c.Damages)`.  The sum, the differences and the
comparison are those of `float64`; `json.Marshal` gives no bytes for an amount
that is not finite, and the key then holds no record. -/
theorem transfer_with_damages_settles (s : Store) (f : Key → Bool) (carId newOwner : Key)
    (c : Car) (n o : Owner)
    (hs : Committed s)
    (hcar : GetState (Ctx.start s f) carId = .ok (some (Value.car c)))
    (hdam : c.Damages ≠ [])
    (hown : GetState (Ctx.start s f) newOwner = .ok (some (Value.owner n)))
    (hold : GetState (Ctx.start s f) ("OWNER" ++ c.Owner) = .ok (some (Value.owner o)))
    (hdiff : "OWNER" ++ c.Owner ≠ newOwner)
    (hfunds : (n.Money : float64) ≥ (c.Price : float64) - damagesPrice c.Damages) :
    (TransferOwnership (Ctx.start s f) carId newOwner true).2 = none ∧
      (after (TransferOwnership (Ctx.start s f) carId newOwner true)).get carId =
        some (Value.car { c with Owner := Itoa n.Id }) ∧
      (after (TransferOwnership (Ctx.start s f) carId newOwner true)).get newOwner =
        marshalOwner n ((n.Money : float64) - ((c.Price : float64) - damagesPrice c.Damages)) ∧
      (after (TransferOwnership (Ctx.start s f) carId newOwner true)).get ("OWNER" ++ c.Owner) =
        marshalOwner o ((o.Money : float64) + ((c.Price : float64) - damagesPrice c.Damages)) := by
  have hwf := WellFormed_of_committed hs
  have hsget : s.get carId = some (Value.car c) := (GetState_ledger hcar).2
  obtain ⟨hsimple, hcolor⟩ := hwf.2 carId c hsget hdam
  have hnew : newOwner ≠ "" := by
    intro e
    have h2 : s.get newOwner = some (Value.owner n) := (GetState_ledger hown).2
    rw [e, hwf.1] at h2
    cases h2
  have hlen : ¬ c.Damages.length = 0 := fun h => hdam (List.length_eq_zero.mp h)
  have hpos : c.Damages.length > 0 := Nat.pos_of_ne_zero hlen
  obtain ⟨key, hkey⟩ := CreateCompositeKey_index_ok c.Color (Itoa n.Id) (Itoa c.Id) hcolor
    (validate_Itoa _) (validate_Itoa _)
  have hT : TransferOwnership (Ctx.start s f) carId newOwner true =
      settle (Ctx.start s f) carId newOwner c n
        ((c.Price : float64) - damagesPrice c.Damages) := by
    rw [TransferOwnership_of_records (Ctx.start s f) carId newOwner true c n hcar hown]
    rw [if_neg (fun h => hlen h.1), if_pos ⟨hpos, rfl⟩, if_pos hfunds]
  rw [hT, settle_ok (Ctx.start s f) carId newOwner c n o _ key (simpleKey_ne_empty hsimple) hnew
    (fun _ => rfl) hkey (GetOwnerById_of_GetState hold)]
  have h1 : carId ≠ newOwner :=
    ne_of_get_ne (GetState_ledger hcar).2 (GetState_ledger hown).2 (by simp)
  have h2 : carId ≠ "OWNER" ++ c.Owner :=
    ne_of_get_ne (GetState_ledger hcar).2 (GetState_ledger hold).2 (by simp)
  exact ⟨rfl, settled_get (Ctx.start s f).world carId newOwner c n o _ key hsimple hkey h1 h2
    hdiff⟩

/-- C6, amended, at the instance of the specification: after `InitLedger`,
`TransferOwnership("CAR1", "OWNER2", true)` settles at 4000, leaving owner 2
with 96000 and owner 1 with 84000. -/
theorem transfer_with_damages_settles_witness :
    (TransferOwnership (Ctx.start seeded noFailure) "CAR1" "OWNER2" true).2 = none ∧
      (after (TransferOwnership (Ctx.start seeded noFailure) "CAR1" "OWNER2" true)).get "CAR1" =
        some (Value.car ⟨1, "Toyota", "Prius", "blue", "2", [⟨"Bad engine", 1000⟩], 5000⟩) ∧
      (after (TransferOwnership (Ctx.start seeded noFailure) "CAR1" "OWNER2" true)).get "OWNER2" =
        some (Value.owner ⟨2, "Nikola", "Kajtes", "nikolakajtes@gmail.com", 96000⟩) ∧
      (after (TransferOwnership (Ctx.start seeded noFailure) "CAR1" "OWNER2" true)).get
          ("OWNER" ++ "1") =
        some (Value.owner ⟨1, "Marko", "Markovic", "markonikolic@gmail.com", 84000⟩) :=
  have h := transfer_with_damages_settles seeded noFailure "CAR1" "OWNER2"
    ⟨1, "Toyota", "Prius", "blue", "1", [⟨"Bad engine", 1000⟩], 5000⟩
    ⟨2, "Nikola", "Kajtes", "nikolakajtes@gmail.com", 100000⟩
    ⟨1, "Marko", "Markovic", "markonikolic@gmail.com", 80000⟩
    Committed_seeded rfl (by decide) rfl rfl (by decide) (by decide)
  ⟨h.1, h.2.1, h.2.2.1.trans (by decide), h.2.2.2.trans (by decide)⟩

/-- C6 as stated fails.  The ledger `InitLedger` leaves is a world state the
contract produces, and every hypothesis of the claim holds in it for
`TransferOwnership("CAR1", "OWNER2", true)`; when the backing store refuses the
write of the index key of (blue, "2", "1"), the call returns an error, the one
of that write (lines 301-304). -/
theorem transfer_with_damages_not_settled :
    Committed seeded ∧
      GetState ((Ctx.start seeded noFailure).refuse
        (refusingOnly (keyOrEmpty (CreateCompositeKey indexName ["blue", "2", "1"])))) "CAR1" =
        .ok (some (Value.car ⟨1, "Toyota", "Prius", "blue", "1", [⟨"Bad engine", 1000⟩], 5000⟩)) ∧
      GetState ((Ctx.start seeded noFailure).refuse
        (refusingOnly (keyOrEmpty (CreateCompositeKey indexName ["blue", "2", "1"])))) "OWNER2" =
        .ok (some (Value.owner ⟨2, "Nikola", "Kajtes", "nikolakajtes@gmail.com", 100000⟩)) ∧
      GetState ((Ctx.start seeded noFailure).refuse
        (refusingOnly (keyOrEmpty (CreateCompositeKey indexName ["blue", "2", "1"]))))
          ("OWNER" ++ "1") =
        .ok (some (Value.owner ⟨1, "Marko", "Markovic", "markonikolic@gmail.com", 80000⟩)) ∧
      (100000 : float64) ≥ (5000 : float64) - damagesPrice [⟨"Bad engine", 1000⟩] ∧
      (TransferOwnership ((Ctx.start seeded noFailure).refuse
        (refusingOnly (keyOrEmpty (CreateCompositeKey indexName ["blue", "2", "1"]))))
        "CAR1" "OWNER2" true).2 ≠ none :=
  ⟨Committed_seeded, rfl, rfl, rfl, by decide, by decide⟩

/-- C7 (settlement without damages), amended.  In every world state `s` the
contract produces, when no write is refused: if `carId` is a simple key holding
a car `c` with an empty damage list and a colour accepted as a composite-key
attribute, `newOwner` holds an owner `n`, `"OWNER" + c.Owner` holds an owner
`o` under a key different from `newOwner`, and `n.Money >= c.Price`, then
`TransferOwnership(carId, newOwner, b)` returns no error for both values of `b`
and afterwards `carId` holds `c` with only `Owner` replaced by `Itoa n.Id`,
`newOwner` holds what `json.Marshal` gives for `n` with `Money` set to
`n.Money - c.Price`, and `"OWNER" + c.Owner` holds what it gives for `o` with
`Money` set to `o.Money + c.Price`.  The difference, the sum and the
comparison are those of `float64`; `json.Marshal` gives no bytes for an amount
that is not finite, and the key then holds no record. -/
theorem transfer_without_damages_settles (s : Store) (f : Key → Bool) (carId newOwner : Key)
    (b : Bool) (c : Car) (n o : Owner)
    (hs : Committed s)
    (hcar : GetState (Ctx.start s f) carId = .ok (some (Value.car c)))
    (hdam : c.Damages = [])
    (hown : GetState (Ctx.start s f) newOwner = .ok (some (Value.owner n)))
    (hold : GetState (Ctx.start s f) ("OWNER" ++ c.Owner) = .ok (some (Value.owner o)))
    (hdiff : "OWNER" ++ c.Owner ≠ newOwner)
    (hfunds : (n.Money : float64) ≥ c.Price)
    (hsimple : simpleKey carId = true)
    (hcolor : validateCompositeKeyAttribute c.Color = true) :
    (TransferOwnership (Ctx.start s f) carId newOwner b).2 = none ∧
      (after (TransferOwnership (Ctx.start s f) carId newOwner b)).get carId =
        some (Value.car { c with Owner := Itoa n.Id }) ∧
      (after (TransferOwnership (Ctx.start s f) carId newOwner b)).get newOwner =
        marshalOwner n ((n.Money : float64) - c.Price) ∧
      (after (TransferOwnership (Ctx.start s f) carId newOwner b)).get ("OWNER" ++ c.Owner) =
        marshalOwner o ((o.Money : float64) + c.Price) := by
  have hwf := WellFormed_of_committed hs
  have hnew : newOwner ≠ "" := by
    intro e
    have h2 : s.get newOwner = some (Value.owner n) := (GetState_ledger hown).2
    rw [e, hwf.1] at h2
    cases h2
  have hlen : c.Damages.length = 0 := by rw [hdam]; rfl
  obtain ⟨key, hkey⟩ := CreateCompositeKey_index_ok c.Color (Itoa n.Id) (Itoa c.Id) hcolor
    (validate_Itoa _) (validate_Itoa _)
  have hT : TransferOwnership (Ctx.start s f) carId newOwner b =
      settle (Ctx.start s f) carId newOwner c n c.Price := by
    rw [TransferOwnership_of_records (Ctx.start s f) carId newOwner b c n hcar hown]
    rw [if_pos ⟨hlen, hfunds⟩]
  rw [hT, settle_ok (Ctx.start s f) carId newOwner c n o _ key (simpleKey_ne_empty hsimple) hnew
    (fun _ => rfl) hkey (GetOwnerById_of_GetState hold)]
  have h1 : carId ≠ newOwner :=
    ne_of_get_ne (GetState_ledger hcar).2 (GetState_ledger hown).2 (by simp)
  have h2 : carId ≠ "OWNER" ++ c.Owner :=
    ne_of_get_ne (GetState_ledger hcar).2 (GetState_ledger hold).2 (by simp)
  exact ⟨rfl, settled_get (Ctx.start s f).world carId newOwner c n o _ key hsimple hkey h1 h2
    hdiff⟩

/-- C7, amended, at the instance of the specification: after `InitLedger`,
`TransferOwnership("CAR2", "OWNER1", false)` leaves car 2 owned by "1", owner 1
with 77000 and owner 3 with 153000. -/
theorem transfer_without_damages_settles_witness :
    (TransferOwnership (Ctx.start seeded noFailure) "CAR2" "OWNER1" false).2 = none ∧
      (after (TransferOwnership (Ctx.start seeded noFailure) "CAR2" "OWNER1" false)).get "CAR2" =
        some (Value.car ⟨2, "Ford", "Mustang", "blue", "1", [], 3000⟩) ∧
      (after (TransferOwnership (Ctx.start seeded noFailure) "CAR2" "OWNER1" false)).get "OWNER1" =
        some (Value.owner ⟨1, "Marko", "Markovic", "markonikolic@gmail.com", 77000⟩) ∧
      (after (TransferOwnership (Ctx.start seeded noFailure) "CAR2" "OWNER1" false)).get
          ("OWNER" ++ "3") =
        some (Value.owner ⟨3, "Petar", "Nikolic", "petarnikolic@gmail.com", 153000⟩) :=
  have h := transfer_without_damages_settles seeded noFailure "CAR2" "OWNER1" false
    ⟨2, "Ford", "Mustang", "blue", "3", [], 3000⟩
    ⟨1, "Marko", "Markovic", "markonikolic@gmail.com", 80000⟩
    ⟨3, "Petar", "Nikolic", "petarnikolic@gmail.com", 150000⟩
    Committed_seeded rfl rfl rfl rfl (by decide) (by decide) (by decide) (by decide)
  ⟨h.1, h.2.1, h.2.2.1.trans (by decide), h.2.2.2.trans (by decide)⟩

/-- C7 as stated fails, on four world states the contract produces.  On the
seeded ledger extended by a car 7 without damages whose colour is `U+0000`,
every hypothesis of the claim holds for `TransferOwnership("CAR7", "OWNER2",
false)` and the call returns an error: the new index key cannot be built.  On
the seeded ledger extended by a car stored under the composite key of (blue,
"2", "0"), the transfer of that key to `"OWNER2"` returns no error and leaves
the index marker, not the car, under that key.  On the seeded ledger, when the
write of the index key of (blue, "1", "2") is refused, `TransferOwnership("CAR2",
"OWNER1", false)` returns an error, the one of that write (lines 258-261).  In
`richLedger` every hypothesis of the claim holds for `TransferOwnership("CAR8",
"OWNER2", false)`; the call returns no error, the new balance of owner 2 is
`+Inf`, which `json.Marshal` refuses, and afterwards `"OWNER2"` holds no
record. -/
theorem transfer_without_damages_not_settled :
    (Committed nulColourLedger ∧
      nulColourLedger.get "CAR7" = some (Value.car ⟨0, "Fiat", "Uno", "\x00", "1", [], 100⟩) ∧
      nulColourLedger.get "OWNER2" =
        some (Value.owner ⟨2, "Nikola", "Kajtes", "nikolakajtes@gmail.com", 100000⟩) ∧
      nulColourLedger.get ("OWNER" ++ "1") =
        some (Value.owner ⟨1, "Marko", "Markovic", "markonikolic@gmail.com", 80000⟩) ∧
      (TransferOwnership (Ctx.start nulColourLedger noFailure) "CAR7" "OWNER2" false).2 ≠ none) ∧
    (Committed compositeCarLedger ∧
      compositeCarLedger.get compositeCarKey =
        some (Value.car ⟨0, "Fiat", "Uno", "blue", "1", [], 100⟩) ∧
      (TransferOwnership (Ctx.start compositeCarLedger noFailure) compositeCarKey "OWNER2"
        false).2 = none ∧
      (after (TransferOwnership (Ctx.start compositeCarLedger noFailure) compositeCarKey "OWNER2"
        false)).get compositeCarKey = some Value.marker) ∧
    (Committed seeded ∧
      seeded.get "CAR2" = some (Value.car ⟨2, "Ford", "Mustang", "blue", "3", [], 3000⟩) ∧
      (TransferOwnership ((Ctx.start seeded noFailure).refuse
        (refusingOnly (keyOrEmpty (CreateCompositeKey indexName ["blue", "1", "2"]))))
        "CAR2" "OWNER1" false).2 ≠ none) ∧
    (Committed richLedger ∧
      ∃ c n o, richLedger.get "CAR8" = some (Value.car c) ∧ c.Damages = [] ∧
        simpleKey "CAR8" = true ∧ validateCompositeKeyAttribute c.Color = true ∧
        richLedger.get "OWNER2" = some (Value.owner n) ∧
        richLedger.get ("OWNER" ++ c.Owner) = some (Value.owner o) ∧
        "OWNER" ++ c.Owner ≠ "OWNER2" ∧ (n.Money : float64) ≥ c.Price ∧
        (TransferOwnership (Ctx.start richLedger noFailure) "CAR8" "OWNER2" false).2 = none ∧
        (n.Money : float64) - c.Price = .inf false ∧
        (after (TransferOwnership (Ctx.start richLedger noFailure) "CAR8" "OWNER2" false)).get
          "OWNER2" = none) :=
  ⟨⟨Committed_create Committed_seeded "CAR7" "Fiat" "Uno" "\x00" "1" 100 (by decide), by decide⟩,
    ⟨Committed_create Committed_seeded compositeCarKey "Fiat" "Uno" "blue" "1" 100 (by decide),
      by decide⟩,
    ⟨Committed_seeded, by decide⟩,
    ⟨Committed_create
        (Committed_transfer
          (Committed_create Committed_seeded "CAR7" "Fiat" "Uno" "red" "1" hugeDiscount
            (by decide!))
          "CAR7" "OWNER2" false (by decide!))
        "CAR8" "Fiat" "Uno" "red" "1" hugeDiscount (by decide!),
      ⟨0, "Fiat", "Uno", "red", "1", [], hugeDiscount.toAmount⟩,
      ⟨2, "Nikola", "Kajtes", "nikolakajtes@gmail.com",
        ((100000 : float64) - hugeDiscount).toAmount⟩,
      ⟨1, "Marko", "Markovic", "markonikolic@gmail.com",
        ((80000 : float64) + hugeDiscount).toAmount⟩,
      by decide!⟩⟩

/-- C8 (insufficient funds).  When `carId` holds a car `c` and `newOwner` holds
an owner `n`: if `c` has no damages and `n.Money < c.Price`, or `c` has damages,
`acceptsDamages` is true and `n.Money < c.Price - damagesPrice c.Damages`, the
transfer returns the error "new owner does not have enough money to buy this
car" and hands back the context it was given (nothing written); conversely
that error is returned only in those two cases, so a balance equal to the
settlement price is never rejected for funds.  The sum, the difference and the
comparison are those of `float64`, as lines 279-286 compute them. -/
theorem transfer_insufficient_funds (ctx : Ctx) (carId newOwner : Key) (acceptsDamages : Bool)
    (c : Car) (n : Owner)
    (hcar : GetState ctx carId = .ok (some (Value.car c)))
    (hown : GetState ctx newOwner = .ok (some (Value.owner n))) :
    (((c.Damages = [] ∧ (n.Money : float64) < c.Price) ∨
        (c.Damages ≠ [] ∧ acceptsDamages = true ∧
          (n.Money : float64) < (c.Price : float64) - damagesPrice c.Damages)) →
      TransferOwnership ctx carId newOwner acceptsDamages =
        (ctx, some "new owner does not have enough money to buy this car")) ∧
    ((TransferOwnership ctx carId newOwner acceptsDamages).2 =
        some "new owner does not have enough money to buy this car" →
      ((c.Damages = [] ∧ (n.Money : float64) < c.Price) ∨
        (c.Damages ≠ [] ∧ acceptsDamages = true ∧
          (n.Money : float64) < (c.Price : float64) - damagesPrice c.Damages))) := by
  rw [TransferOwnership_of_records ctx carId newOwner acceptsDamages c n hcar hown]
  by_cases hd : c.Damages = []
  · have hlen : c.Damages.length = 0 := by rw [hd]; rfl
    have hpos : ¬ c.Damages.length > 0 := by omega
    by_cases hm : (n.Money : float64) ≥ c.Price
    · have hm2 : ¬ (n.Money : float64) < c.Price := fun h => float64.not_ge_of_lt h hm
      rw [if_pos ⟨hlen, hm⟩]
      refine ⟨?_, ?_⟩
      · rintro (⟨_, h⟩ | ⟨h, _⟩)
        · exact absurd h hm2
        · exact absurd hd h
      · intro h
        exact absurd h (settle_error_ne_funds _ _ _ _ _ _)
    · rw [if_neg (fun h => hm h.2), if_neg (fun h => hpos h.1), if_neg (fun h => hpos h.1)]
      by_cases hm2 : (n.Money : float64) < c.Price
      · rw [if_pos ⟨hlen, hm2⟩]
        exact ⟨fun _ => rfl, fun _ => Or.inl ⟨hd, hm2⟩⟩
      · rw [if_neg (fun h => hm2 h.2)]
        refine ⟨?_, ?_⟩
        · rintro (⟨_, h⟩ | ⟨h, _⟩)
          · exact absurd h hm2
          · exact absurd hd h
        · intro h
          cases h
  · have hlen : ¬ c.Damages.length = 0 := fun h => hd (List.length_eq_zero.mp h)
    have hpos : c.Damages.length > 0 := Nat.pos_of_ne_zero hlen
    rw [if_neg (fun h => hlen h.1)]
    cases acceptsDamages with
    | false =>
      rw [if_neg (fun h => Bool.noConfusion h.2), if_pos ⟨hpos, rfl⟩]
      refine ⟨?_, ?_⟩
      · rintro (⟨h, _⟩ | ⟨_, h, _⟩)
        · exact absurd h hd
        · cases h
      · intro h
        exact absurd (Option.some.inj h) (by decide)
    | true =>
      rw [if_pos ⟨hpos, rfl⟩]
      by_cases hm : (n.Money : float64) ≥ (c.Price : float64) - damagesPrice c.Damages
      · have hm2 : ¬ (n.Money : float64) < (c.Price : float64) - damagesPrice c.Damages :=
          fun h => float64.not_ge_of_lt h hm
        rw [if_pos hm]
        refine ⟨?_, ?_⟩
        · rintro (⟨h, _⟩ | ⟨_, _, h⟩)
          · exact absurd h hd
          · exact absurd h hm2
        · intro h
          exact absurd h (settle_error_ne_funds _ _ _ _ _ _)
      · have hm2 : (n.Money : float64) < (c.Price : float64) - damagesPrice c.Damages :=
          float64.lt_of_not_ge (float64.finite_sub_ne_nan _ (damagesPrice_ne_nan _)) hm
        rw [if_neg hm]
        exact ⟨fun _ => rfl, fun _ => Or.inr ⟨hd, rfl, hm2⟩⟩

/-- The settlement price is the `float64` difference.  With car 1 priced `2^53 + 2`
and carrying a damage of 1, the settlement price is `2^53` (the exact
difference `2^53 + 1` is not a `float64` and rounds to even), and owner 2, who
holds `2^53`, is not rejected for funds: the transfer returns no error, owner 2
is left with 0 and owner 1 with `80000 + 2^53`. -/
theorem rounded_settlement_price :
    (9007199254740994 : float64) -
        damagesPrice [⟨"Bad engine", 1⟩] = 9007199254740992 ∧
      (TransferOwnership (Ctx.start roundingLedger noFailure) "CAR1" "OWNER2" true).2 = none ∧
      balance (after (TransferOwnership (Ctx.start roundingLedger noFailure) "CAR1" "OWNER2"
        true)) "OWNER2" = 0 ∧
      balance (after (TransferOwnership (Ctx.start roundingLedger noFailure) "CAR1" "OWNER2"
        true)) "OWNER1" = 9007199254820992 := by
  decide

/-- C8 at an instance: a car priced 3000000 is not sold to owner 1, whose
balance is 80000, and nothing is written. -/
theorem transfer_insufficient_funds_witness :
    GetState
        (Ctx.start (after (CreateCar (Ctx.start seeded noFailure) "CAR7" "Bugatti" "Chiron"
          "black" "3" 3000000)) noFailure) "CAR7" =
        .ok (some (Value.car ⟨0, "Bugatti", "Chiron", "black", "3", [], 3000000⟩)) ∧
      TransferOwnership
        (Ctx.start (after (CreateCar (Ctx.start seeded noFailure) "CAR7" "Bugatti" "Chiron"
          "black" "3" 3000000)) noFailure) "CAR7" "OWNER1" true =
        (Ctx.start (after (CreateCar (Ctx.start seeded noFailure) "CAR7" "Bugatti" "Chiron"
          "black" "3" 3000000)) noFailure,
          some "new owner does not have enough money to buy this car") :=
  ⟨rfl,
    (transfer_insufficient_funds
      (Ctx.start (after (CreateCar (Ctx.start seeded noFailure) "CAR7" "Bugatti" "Chiron"
        "black" "3" 3000000)) noFailure) "CAR7" "OWNER1" true
      ⟨0, "Bugatti", "Chiron", "black", "3", [], 3000000⟩
      ⟨1, "Marko", "Markovic", "markonikolic@gmail.com", 80000⟩ rfl rfl).1
      (Or.inl ⟨rfl, by decide⟩)⟩

/-- C9 (silent no-op).  When no read fails and `carId` or `newOwner` holds no
value, `TransferOwnership` returns no error and hands back the context it was
given: nothing was written. -/
theorem transfer_noop_when_missing (ctx : Ctx) (carId newOwner : Key) (acceptsDamages : Bool)
    (hread : ∀ k, ctx.failing k = false)
    (hmiss : ctx.ledger.get carId = none ∨ ctx.ledger.get newOwner = none) :
    TransferOwnership ctx carId newOwner acceptsDamages = (ctx, none) := by
  rcases hmiss with h | h
  · simp [TransferOwnership, CarExists_eq, OwnerExists_eq, GetState, hread, h]
  · simp [TransferOwnership, CarExists_eq, OwnerExists_eq, GetState, hread, h]

/-- C9 at an instance: after `InitLedger` no key `"CAR9"` exists, and the
transfer of `"CAR9"` returns no error and writes nothing. -/
theorem transfer_noop_when_missing_witness :
    (∀ k, (Ctx.start seeded noFailure).failing k = false) ∧
      (Ctx.start seeded noFailure).ledger.get "CAR9" = none ∧
      TransferOwnership (Ctx.start seeded noFailure) "CAR9" "OWNER2" true =
        (Ctx.start seeded noFailure, none) :=
  ⟨fun _ => rfl, by decide,
    transfer_noop_when_missing (Ctx.start seeded noFailure) "CAR9" "OWNER2" true
      (fun _ => rfl) (Or.inl (by decide))⟩


/-! ## The colour change (C10) -/

/-- C10 (colour change), amended.  When `carId` is a simple key holding a car
`c` whose index key `oldKey` is the composite key of `(c.Color, c.Owner, Itoa
c.Id)`, the deletion of `oldKey` is not refused, and `ChangeCarColor(carId,
newColor)` returns no error for a `newColor` different from `c.Color`, then the
composite key `newKey` of `(newColor, c.Owner, Itoa c.Id)` exists and
afterwards: `carId` holds `c` with only `Color` replaced by `newColor`,
`oldKey` is absent, `newKey` holds the marker, and every other key holds what
it held before. -/
theorem change_colour_moves_index (ctx : Ctx) (carId : Key) (newColor : String) (c : Car)
    (oldKey : Key)
    (hcar : GetState ctx carId = .ok (some (Value.car c)))
    (hsimple : simpleKey carId = true)
    (hold : CreateCompositeKey indexName [c.Color, c.Owner, Itoa c.Id] = .ok oldKey)
    (hdel : ctx.refusing oldKey = false)
    (hne : newColor ≠ c.Color)
    (hok : (ChangeCarColor ctx carId newColor).2 = none) :
    ∃ newKey, CreateCompositeKey indexName [newColor, c.Owner, Itoa c.Id] = .ok newKey ∧
      (after (ChangeCarColor ctx carId newColor)).get carId =
        some (Value.car { c with Color := newColor }) ∧
      (after (ChangeCarColor ctx carId newColor)).get oldKey = none ∧
      (after (ChangeCarColor ctx carId newColor)).get newKey = some Value.marker ∧
      ∀ k, k ≠ carId → k ≠ oldKey → k ≠ newKey →
        (after (ChangeCarColor ctx carId newColor)).get k = ctx.world.get k := by
  obtain ⟨newKey, hnew, hcne, hr1, hr3⟩ := ChangeCarColor_new_key ctx carId newColor c hcar hok
  have hC := ChangeCarColor_world ctx carId newColor c oldKey newKey hcar hold hnew hcne hr1
    hdel hr3
  have h1 : carId ≠ newKey := simpleKey_ne_composite hsimple hnew
  have h2 : carId ≠ oldKey := simpleKey_ne_composite hsimple hold
  have h3 : oldKey ≠ newKey := by
    intro e
    rw [e] at hold
    exact hne (CreateCompositeKey_inj hnew hold).1
  refine ⟨newKey, hnew, ?_, ?_, ?_, ?_⟩
  · simp only [hC, after, Store.get_put, Store.get_del, h1, h2, if_false, if_true]
  · simp only [hC, after, Store.get_put, Store.get_del, h3, if_false, if_true]
  · simp only [hC, after, Store.get_put, if_true, value]
  · intro k hk1 hk2 hk3
    simp only [hC, after, Store.get_put, Store.get_del, hk1, hk2, hk3, if_false]

/-- C10, amended, at the instance of the specification: after `InitLedger`,
`ChangeCarColor("CAR3", "red")` on the green Hyundai. -/
theorem change_colour_moves_index_witness :
    ∃ newKey, CreateCompositeKey indexName ["red", "2", Itoa 3] = .ok newKey ∧
      (after (ChangeCarColor (Ctx.start seeded noFailure) "CAR3" "red")).get "CAR3" =
        some (Value.car
          ⟨3, "Hyundai", "Tucson", "red", "2", [⟨"Eletronic failure", 800⟩], 2500⟩) ∧
      (after (ChangeCarColor (Ctx.start seeded noFailure) "CAR3" "red")).get
          (keyOrEmpty (CreateCompositeKey indexName ["green", "2", "3"])) = none ∧
      (after (ChangeCarColor (Ctx.start seeded noFailure) "CAR3" "red")).get newKey =
        some Value.marker ∧
      ∀ k, k ≠ "CAR3" → k ≠ keyOrEmpty (CreateCompositeKey indexName ["green", "2", "3"]) →
        k ≠ newKey →
        (after (ChangeCarColor (Ctx.start seeded noFailure) "CAR3" "red")).get k =
          (Ctx.start seeded noFailure).world.get k :=
  change_colour_moves_index (Ctx.start seeded noFailure) "CAR3" "red"
    ⟨3, "Hyundai", "Tucson", "green", "2", [⟨"Eletronic failure", 800⟩], 2500⟩
    (keyOrEmpty (CreateCompositeKey indexName ["green", "2", "3"]))
    rfl (by decide) rfl rfl (by decide) (by decide)

/-- C10 as stated fails.  In `recolouredLedger` the key `compositeCarKey` holds a
red car with owner "2" and `Id` 0 whose index entry (red, "2", "0") is present.
`ChangeCarColor(compositeCarKey, "blue")` returns no error, and afterwards the
key holds the index marker, not the car: the new index key (blue, "2", "0") is
the key of the car itself.  After `InitLedger`, when the backing store refuses
the deletion of the index key of (green, "2", "3"), `ChangeCarColor("CAR3",
"red")` returns no error all the same (line 206 drops the result of
`DelState`) and the old index entry is still present. -/
theorem change_colour_overwrites_car :
    (recolouredLedger.get compositeCarKey =
        some (Value.car ⟨0, "Fiat", "Uno", "red", "2", [], 100⟩) ∧
      recolouredLedger.get (keyOrEmpty (CreateCompositeKey indexName ["red", "2", Itoa 0])) =
        some Value.marker ∧
      (ChangeCarColor (Ctx.start recolouredLedger noFailure) compositeCarKey "blue").2 = none ∧
      (after (ChangeCarColor (Ctx.start recolouredLedger noFailure) compositeCarKey "blue")).get
          compositeCarKey = some Value.marker) ∧
    (seeded.get "CAR3" =
        some (Value.car ⟨3, "Hyundai", "Tucson", "green", "2", [⟨"Eletronic failure", 800⟩],
          2500⟩) ∧
      (ChangeCarColor ((Ctx.start seeded noFailure).refuse
        (refusingOnly (keyOrEmpty (CreateCompositeKey indexName ["green", "2", "3"]))))
        "CAR3" "red").2 = none ∧
      (after (ChangeCarColor ((Ctx.start seeded noFailure).refuse
        (refusingOnly (keyOrEmpty (CreateCompositeKey indexName ["green", "2", "3"]))))
        "CAR3" "red")).get (keyOrEmpty (CreateCompositeKey indexName ["green", "2", "3"])) =
        some Value.marker) := by
  decide

/-! ## Deletion and the queries (C11 to C14) -/

/-- C11 (delete requires existence and removes only the primary record),
amended.  If `carId` holds no value, `DeleteCar(carId)` returns an error and
hands back the context it was given.  If `carId` holds a value and the backing
store does not refuse the deletion, `DeleteCar(carId)` returns no error,
afterwards `carId` holds no value, and every other key, index entries and
owner records included, holds the value it held before.  If `carId` holds a
value and the deletion is refused, `DeleteCar(carId)` returns the error of
`DelState` and hands back the context it was given. -/
theorem delete_removes_only_primary_record (ctx : Ctx) (carId : Key) :
    (GetState ctx carId = .ok none →
      DeleteCar ctx carId = (ctx, some ("the asset " ++ carId ++ " does not exist"))) ∧
    (∀ v, GetState ctx carId = .ok (some v) →
      (ctx.refusing carId = false →
        (DeleteCar ctx carId).2 = none ∧
        (after (DeleteCar ctx carId)).get carId = none ∧
        ∀ k, k ≠ carId → (after (DeleteCar ctx carId)).get k = ctx.world.get k) ∧
      (ctx.refusing carId = true →
        (DeleteCar ctx carId).2 ≠ none ∧ (DeleteCar ctx carId).1 = ctx)) := by
  constructor
  · intro h
    simp [DeleteCar, CarExists_eq, h]
  · intro v h
    have hD : DeleteCar ctx carId = DelState ctx carId := by
      simp [DeleteCar, CarExists_eq, h]
    rw [hD]
    constructor
    · intro hr
      rw [DelState_ok hr]
      refine ⟨rfl, ?_, ?_⟩
      · simp [after, Store.get_del]
      · intro k hk
        simp [after, Store.get_del, hk]
    · intro hr
      simp [DelState, hr]

/-- C11, amended, at an instance: after `InitLedger`, `DeleteCar("CAR9")` is
rejected, and `DeleteCar("CAR1")` removes the record of car 1 while its index
entry (blue, "1", "1") and the record of its owner stay. -/
theorem delete_removes_only_primary_record_witness :
    (DeleteCar (Ctx.start seeded noFailure) "CAR9").2 ≠ none ∧
      (DeleteCar (Ctx.start seeded noFailure) "CAR1").2 = none ∧
      (after (DeleteCar (Ctx.start seeded noFailure) "CAR1")).get "CAR1" = none ∧
      (after (DeleteCar (Ctx.start seeded noFailure) "CAR1")).get
          (keyOrEmpty (CreateCompositeKey indexName ["blue", "1", "1"])) = some Value.marker ∧
      (after (DeleteCar (Ctx.start seeded noFailure) "CAR1")).get "OWNER1" =
        some (Value.owner ⟨1, "Marko", "Markovic", "markonikolic@gmail.com", 80000⟩) :=
  ⟨by
      rw [(delete_removes_only_primary_record (Ctx.start seeded noFailure) "CAR9").1 rfl]
      simp,
    (((delete_removes_only_primary_record (Ctx.start seeded noFailure) "CAR1").2 _ rfl).1 rfl).1,
    (((delete_removes_only_primary_record (Ctx.start seeded noFailure) "CAR1").2 _ rfl).1
      rfl).2.1,
    by
      rw [(((delete_removes_only_primary_record (Ctx.start seeded noFailure) "CAR1").2 _ rfl).1
        rfl).2.2 _ (by decide)]
      decide,
    by
      rw [(((delete_removes_only_primary_record (Ctx.start seeded noFailure) "CAR1").2 _ rfl).1
        rfl).2.2 _ (by decide)]
      decide⟩

/-- C11 as stated fails.  After `InitLedger` the key `"CAR1"` holds a value; when
the backing store refuses the deletion of `"CAR1"`, `DeleteCar("CAR1")` returns
the error of `DelState` (line 366) and the record is still there. -/
theorem delete_returns_write_error :
    GetState ((Ctx.start seeded noFailure).refuse (refusingOnly "CAR1")) "CAR1" =
        .ok (some (Value.car ⟨1, "Toyota", "Prius", "blue", "1", [⟨"Bad engine", 1000⟩], 5000⟩)) ∧
      (DeleteCar ((Ctx.start seeded noFailure).refuse (refusingOnly "CAR1")) "CAR1").2 ≠
        none ∧
      (after (DeleteCar ((Ctx.start seeded noFailure).refuse (refusingOnly "CAR1")) "CAR1")).get
        "CAR1" =
        some (Value.car ⟨1, "Toyota", "Prius", "blue", "1", [⟨"Bad engine", 1000⟩], 5000⟩) :=
  ⟨rfl, by decide, by decide⟩

/-- C12 (decode failures), amended.  When `k` holds a value `v`, `GetCarById(k)`
and `GetOwnerById(k)` return no error, whatever `v` is: the decoded entity when
`v` is a document of the expected kind, a struct with `Id` alone filled when it
is a document of the other kind, and the zero-valued struct when it is not
JSON (the index marker).  The error of `json.Unmarshal` is discarded. -/
theorem get_by_id_discards_decode_error (ctx : Ctx) (k : Key) (v : Value)
    (h : GetState ctx k = .ok (some v)) :
    GetCarById ctx k = .ok
        (match v with
          | .car c => c
          | .owner o => ⟨o.Id, "", "", "", "", [], 0⟩
          | .marker => ⟨0, "", "", "", "", [], 0⟩) ∧
      GetOwnerById ctx k = .ok
        (match v with
          | .owner o => o
          | .car c => ⟨c.Id, "", "", "", 0⟩
          | .marker => ⟨0, "", "", "", 0⟩) := by
  cases v <;> simp [GetCarById_eq, GetOwnerById_eq, h, unmarshalCar, unmarshalOwner, zeroCar, zeroOwner]

/-- C12, amended, at an instance: the index entry of car 1 read as a car and as
an owner. -/
theorem get_by_id_discards_decode_error_witness :
    GetCarById (Ctx.start seeded noFailure)
        (keyOrEmpty (CreateCompositeKey indexName ["blue", "1", "1"])) =
        .ok ⟨0, "", "", "", "", [], 0⟩ ∧
      GetOwnerById (Ctx.start seeded noFailure)
        (keyOrEmpty (CreateCompositeKey indexName ["blue", "1", "1"])) =
        .ok ⟨0, "", "", "", 0⟩ :=
  get_by_id_discards_decode_error (Ctx.start seeded noFailure)
    (keyOrEmpty (CreateCompositeKey indexName ["blue", "1", "1"])) Value.marker rfl

/-- C12 as stated fails.  After `InitLedger` the index key of (blue, "1", "1")
holds the marker byte, on which `json.Unmarshal` returns an error; `GetCarById`
and `GetOwnerById` of that key return no error and the zero-valued struct.
`GetCarById("OWNER1")` returns a `Car` with `Id` 1 and nothing else filled, and
`GetOwnerById("CAR1")` an `Owner` with `Id` 1 and nothing else filled. -/
theorem get_by_id_returns_zero_struct :
    seeded.get (keyOrEmpty (CreateCompositeKey indexName ["blue", "1", "1"])) =
        some Value.marker ∧
      (unmarshalCar Value.marker).2 ≠ none ∧
      (unmarshalOwner Value.marker).2 ≠ none ∧
      GetCarById (Ctx.start seeded noFailure)
        (keyOrEmpty (CreateCompositeKey indexName ["blue", "1", "1"])) = .ok zeroCar ∧
      GetOwnerById (Ctx.start seeded noFailure)
        (keyOrEmpty (CreateCompositeKey indexName ["blue", "1", "1"])) = .ok zeroOwner ∧
      GetCarById (Ctx.start seeded noFailure) "OWNER1" = .ok ⟨1, "", "", "", "", [], 0⟩ ∧
      GetOwnerById (Ctx.start seeded noFailure) "CAR1" = .ok ⟨1, "", "", "", 0⟩ :=
  ⟨by decide, by decide, by decide, rfl, rfl, rfl, rfl⟩

/-- C13 (existence oracle).  When the read of `k` does not fail, `CarExists(k)`
returns `(true, nil)` if the ledger holds a value at `k` and `(false, nil)`
otherwise, whatever the value is.  `OwnerExists(k)` returns what `CarExists(k)`
returns, for every `k`.  When the read of `k` fails, each returns `false` and an
error. -/
theorem exists_iff_value_present (ctx : Ctx) (k : Key) :
    (ctx.failing k = false → CarExists ctx k = ((ctx.ledger.get k).isSome, none)) ∧
      OwnerExists ctx k = CarExists ctx k ∧
      (ctx.failing k = true →
        (CarExists ctx k).1 = false ∧ (CarExists ctx k).2 ≠ none ∧
        (OwnerExists ctx k).1 = false ∧ (OwnerExists ctx k).2 ≠ none) := by
  refine ⟨?_, rfl, ?_⟩
  · intro h
    simp [CarExists_eq, GetState, h]
  · intro h
    simp [CarExists_eq, OwnerExists_eq, GetState, h]

/-- C13 at instances: after `InitLedger`, `CarExists` is true on an owner key and
on an index key, `OwnerExists` is true on a car key, both are false on an
absent key, and a failing read of `"CAR1"` gives `false` with an error. -/
theorem exists_iff_value_present_witness :
    CarExists (Ctx.start seeded noFailure) "OWNER1" = (true, none) ∧
      OwnerExists (Ctx.start seeded noFailure) "CAR1" = (true, none) ∧
      CarExists (Ctx.start seeded noFailure)
        (keyOrEmpty (CreateCompositeKey indexName ["blue", "1", "1"])) = (true, none) ∧
      CarExists (Ctx.start seeded noFailure) "CAR9" = (false, none) ∧
      OwnerExists (Ctx.start seeded noFailure) "CAR9" = (false, none) ∧
      (CarExists (Ctx.start seeded (fun k => decide (k = "CAR1"))) "CAR1").1 = false ∧
      (CarExists (Ctx.start seeded (fun k => decide (k = "CAR1"))) "CAR1").2 ≠ none :=
  ⟨(exists_iff_value_present (Ctx.start seeded noFailure) "OWNER1").1 rfl,
    by decide, by decide, by decide, by decide,
    ((exists_iff_value_present (Ctx.start seeded (fun k => decide (k = "CAR1"))) "CAR1").2.2
      (by decide)).1,
    ((exists_iff_value_present (Ctx.start seeded (fun k => decide (k = "CAR1"))) "CAR1").2.2
      (by decide)).2.1⟩

/-- C14 (queries are pure).  Each of `GetCarById`, `GetOwnerById`, `GetAllCars`,
`CarExists` and `OwnerExists`, run as a step of an invocation in any context
`ctx`, hands back `ctx` itself: it has recorded no write and no delete, so the
store is what it was, whether the call returns an error or not.  Run a second
time, in the context the first run handed back, it returns the same result. -/
theorem queries_are_pure (ctx : Ctx) (k : Key) :
    ((Step.GetCarById ctx k).1 = ctx ∧
      (Step.GetCarById (Step.GetCarById ctx k).1 k).2 = (Step.GetCarById ctx k).2) ∧
    ((Step.GetOwnerById ctx k).1 = ctx ∧
      (Step.GetOwnerById (Step.GetOwnerById ctx k).1 k).2 = (Step.GetOwnerById ctx k).2) ∧
    ((Step.GetAllCars ctx).1 = ctx ∧
      (Step.GetAllCars (Step.GetAllCars ctx).1).2 = (Step.GetAllCars ctx).2) ∧
    ((Step.CarExists ctx k).1 = ctx ∧
      (Step.CarExists (Step.CarExists ctx k).1 k).2 = (Step.CarExists ctx k).2) ∧
    ((Step.OwnerExists ctx k).1 = ctx ∧
      (Step.OwnerExists (Step.OwnerExists ctx k).1 k).2 = (Step.OwnerExists ctx k).2) := by
  have h1 : (Step.GetCarById ctx k).1 = ctx := by
    unfold Step.GetCarById Step.GetState
    cases GetState ctx k with
    | error e => rfl
    | ok r => cases r <;> rfl
  have h2 : (Step.GetOwnerById ctx k).1 = ctx := by
    unfold Step.GetOwnerById Step.GetState
    cases GetState ctx k with
    | error e => rfl
    | ok r => cases r <;> rfl
  have h3 : (Step.GetAllCars ctx).1 = ctx := by
    unfold Step.GetAllCars Step.GetStateByRange
    cases GetStateByRange ctx "" "" <;> rfl
  have h4 : (Step.CarExists ctx k).1 = ctx := by
    unfold Step.CarExists Step.GetState
    cases GetState ctx k <;> rfl
  have h5 : (Step.OwnerExists ctx k).1 = ctx := by
    unfold Step.OwnerExists Step.GetState
    cases GetState ctx k <;> rfl
  exact ⟨⟨h1, by rw [h1]⟩, ⟨h2, by rw [h2]⟩, ⟨h3, by rw [h3]⟩, ⟨h4, by rw [h4]⟩,
    ⟨h5, by rw [h5]⟩⟩

/-! ## Seeding and the range query (C15, C16) -/

/-- C15 (seeding establishes the index).  `InitLedger` on the empty ledger
returns no error and leaves the world state `seeded`.  In it, an index key of
`(c, o, id)` that is present comes with a car record under `"CAR" + id` that
has colour `c` and owner `o`; a car record under `"CAR" + id` with colour `c`
and owner `o` comes with the index key of `(c, o, id)`, present with the marker;
each seeded car is stored under `"CAR" + Itoa(Id)` and each seeded owner under
`"OWNER" + Itoa(Id)`. -/
theorem seeding_establishes_index :
    (∀ f, (InitLedger (Ctx.start [] f)).2 = none ∧ after (InitLedger (Ctx.start [] f)) = seeded) ∧
    (∀ c o id ik, CreateCompositeKey indexName [c, o, id] = .ok ik → seeded.get ik ≠ none →
      ∃ car, seeded.get ("CAR" ++ id) = some (Value.car car) ∧ car.Color = c ∧ car.Owner = o) ∧
    (∀ c o id car, seeded.get ("CAR" ++ id) = some (Value.car car) → car.Color = c →
      car.Owner = o →
      ∃ ik, CreateCompositeKey indexName [c, o, id] = .ok ik ∧
        seeded.get ik = some Value.marker) ∧
    (∀ car ∈ cars, seeded.get ("CAR" ++ Itoa car.Id) = some (Value.car car)) ∧
    (∀ owner ∈ owners, seeded.get ("OWNER" ++ Itoa owner.Id) = some (Value.owner owner)) := by
  refine ⟨fun f => ⟨rfl, rfl⟩, ?_, ?_, by decide, by decide⟩
  · intro c o id ik hik hpresent
    obtain ⟨car, hcar, _, hc, ho⟩ := IndexInvariant_seeded.2 c o id ik hik hpresent
    exact ⟨car, hcar, hc, ho⟩
  · intro c o id car hcar hc ho
    obtain ⟨hkey, ik, hik, hget⟩ := IndexInvariant_seeded.1 _ car hcar
    have hid : id = Itoa car.Id := append_left_inj "CAR" _ _ hkey
    rw [← hc, ← ho, hid]
    exact ⟨ik, hik, hget⟩

/-- C16 (`GetAllCars` returns the scan decoded in order).  When the range scan
over `("", "")` returns `entries`: these are the committed bindings of the simple
keys, one per key in strictly increasing key order (index entries, under
composite keys, are not among them, owner records are); if every scanned value
decodes as a `Car`, `GetAllCars` returns the list of the decoded values, entry
by entry in that order; if some scanned value fails to decode, `GetAllCars`
returns an error and no list. -/
theorem get_all_cars_decodes_scan (ctx : Ctx) (entries : List (Key × Value))
    (hscan : GetStateByRange ctx "" "" = .ok entries) :
    (Increasing entries ∧
      ∀ k v, (k, v) ∈ entries ↔ simpleKey k = true ∧ ctx.ledger.get k = some v) ∧
    ((∀ q ∈ entries, (unmarshalCar q.2).2 = none) →
      GetAllCars ctx = .ok (entries.map (fun q => (unmarshalCar q.2).1))) ∧
    ((∃ q ∈ entries, (unmarshalCar q.2).2 ≠ none) → ∃ err, GetAllCars ctx = .error err) := by
  have he := GetStateByRange_open ctx entries hscan
  refine ⟨⟨?_, ?_⟩, ?_, ?_⟩
  · rw [he]
    exact List.Pairwise.filter _ (Increasing_scan _)
  · intro k v
    rw [he, List.mem_filter, mem_scan]
    exact and_comm
  · intro h
    rw [GetAllCars_eq, hscan]
    simpa using appendCars_ok entries [] h
  · intro h
    rw [GetAllCars_eq, hscan]
    exact appendCars_error entries [] h

/-- C16 at instances: after `InitLedger`, `GetAllCars` returns the six cars and
then the three owner records decoded as cars; with the marker stored under the
simple key `"X"` it returns an error. -/
theorem get_all_cars_decodes_scan_witness :
    GetAllCars (Ctx.start seeded noFailure) =
        .ok [ ⟨1, "Toyota", "Prius", "blue", "1", [⟨"Bad engine", 1000⟩], 5000⟩,
              ⟨2, "Ford", "Mustang", "blue", "3", [], 3000⟩,
              ⟨3, "Hyundai", "Tucson", "green", "2", [⟨"Eletronic failure", 800⟩], 2500⟩,
              ⟨4, "Volkswagen", "Passat", "blue", "2", [], 7000⟩,
              ⟨5, "Tesla", "S", "blue", "3", [], 20000⟩,
              ⟨6, "Peugeot", "205", "black", "3", [], 2000⟩,
              ⟨1, "", "", "", "", [], 0⟩, ⟨2, "", "", "", "", [], 0⟩,
              ⟨3, "", "", "", "", [], 0⟩ ] ∧
      ∃ err, GetAllCars (Ctx.start (seeded.put "X" Value.marker) noFailure) = .error err :=
  ⟨(get_all_cars_decodes_scan (Ctx.start seeded noFailure)
      ((seeded.scan).filter (fun q => inRange emptyKeySubstitute "" q.1)) rfl).2.1 (by decide),
    (get_all_cars_decodes_scan (Ctx.start (seeded.put "X" Value.marker) noFailure)
      (((seeded.put "X" Value.marker).scan).filter
        (fun q => inRange emptyKeySubstitute "" q.1)) rfl).2.2
      ⟨("X", Value.marker), by decide, by decide⟩⟩

/-! ## Footprint, settlement price and idempotence (C17 to C19) -/

/-- C17 (write footprint of a transfer).  A key whose value after
`TransferOwnership(carId, newOwner, acceptsDamages)` differs from its value
before is one of: `carId`, `newOwner`, `"OWNER" + car.Owner`, the key returned
by `CreateCompositeKey` for `[car.Color, car.Owner, carId]` and the one
returned for `[car.Color, Itoa(owner.Id), Itoa(car.Id)]`, where `car` and
`owner` are the records read before the call (a key that cannot be built is
returned as `""`).  Every other key holds the value it held before. -/
theorem transfer_write_footprint (ctx : Ctx) (carId newOwner : Key) (acceptsDamages : Bool)
    (k : Key)
    (hk : (after (TransferOwnership ctx carId newOwner acceptsDamages)).get k ≠
      ctx.world.get k) :
    ∃ car owner, GetCarById ctx carId = .ok car ∧ GetOwnerById ctx newOwner = .ok owner ∧
      (k = carId ∨ k = newOwner ∨ k = "OWNER" ++ car.Owner ∨
        k = keyOrEmpty (CreateCompositeKey indexName [car.Color, car.Owner, carId]) ∨
        k = keyOrEmpty
          (CreateCompositeKey indexName [car.Color, Itoa owner.Id, Itoa car.Id])) := by
  rcases TransferOwnership_cases ctx carId newOwner acceptsDamages with h | h
  · exfalso
    apply hk
    simp only [after]
    rw [h]
  · obtain ⟨car, owner, price, hc, ho, hT⟩ := h
    refine ⟨car, owner, hc, ho, ?_⟩
    by_contra hnot
    simp only [not_or] at hnot
    obtain ⟨h1, h2, h3, h4, h5⟩ := hnot
    apply hk
    simp only [after]
    rw [hT]
    exact settle_frame ctx carId newOwner car owner price k h1 h2 h3 h4 h5

/-- C17 at an instance: after `InitLedger`, `TransferOwnership("CAR1", "OWNER2",
true)` changes the value under `"OWNER1"`, which is `"OWNER" + car.Owner` for
the car read under `"CAR1"`. -/
theorem transfer_write_footprint_witness :
    ∃ car owner, GetCarById (Ctx.start seeded noFailure) "CAR1" = .ok car ∧
      GetOwnerById (Ctx.start seeded noFailure) "OWNER2" = .ok owner ∧
      ("OWNER1" = "CAR1" ∨ "OWNER1" = "OWNER2" ∨ "OWNER1" = "OWNER" ++ car.Owner ∨
        "OWNER1" = keyOrEmpty (CreateCompositeKey indexName [car.Color, car.Owner, "CAR1"]) ∨
        "OWNER1" = keyOrEmpty
          (CreateCompositeKey indexName [car.Color, Itoa owner.Id, Itoa car.Id])) :=
  transfer_write_footprint (Ctx.start seeded noFailure) "CAR1" "OWNER2" true "OWNER1"
    (by decide)

/-- C18 (the settlement price is not bounded below by zero).  In
`overdamagedLedger` car 1 has the price 500, which is not negative, and one
damage, of price 1000; its owner "1" and owner 2 have distinct records, with
balances 80000 and 100000.  `TransferOwnership("CAR1", "OWNER2", true)` returns
no error and settles at 500 - 1000: the balance under `"OWNER2"` is 100500
afterwards, larger than before, and the balance under `"OWNER1"` is 79500,
smaller than before.  A negative settlement price also occurs in a world state
the contract produces itself: `CreateCar` accepts the price -500, and the
transfer of that car, which has no damage, moves the balances the same way. -/
theorem settlement_price_can_be_negative :
    (∃ (s : Store) (carId newOwner : Key) (c : Car) (n o : Owner),
      s.get carId = some (Value.car c) ∧
      c.Price = 500 ∧ c.Damages = [⟨"Bad engine", 1000⟩] ∧
      (0 : float64) ≤ c.Price ∧ (c.Price : float64) < (1000 : float64) ∧
      s.get newOwner = some (Value.owner n) ∧ n.Money = 100000 ∧
      s.get ("OWNER" ++ c.Owner) = some (Value.owner o) ∧ o.Money = 80000 ∧
      "OWNER" ++ c.Owner ≠ newOwner ∧
      (TransferOwnership (Ctx.start s noFailure) carId newOwner true).2 = none ∧
      balance (after (TransferOwnership (Ctx.start s noFailure) carId newOwner true)) newOwner =
        100500 ∧
      balance (after (TransferOwnership (Ctx.start s noFailure) carId newOwner true))
          ("OWNER" ++ c.Owner) = 79500 ∧
      balance (after (TransferOwnership (Ctx.start s noFailure) carId newOwner true)) newOwner >
        balance s newOwner ∧
      balance (after (TransferOwnership (Ctx.start s noFailure) carId newOwner true))
          ("OWNER" ++ c.Owner) <
        balance s ("OWNER" ++ c.Owner)) ∧
    (Committed negativePriceLedger ∧
      (∃ c, negativePriceLedger.get "CAR7" = some (Value.car c) ∧ c.Damages = [] ∧
        c.Owner = "1" ∧ (c.Price : float64) < damagesPrice c.Damages) ∧
      balance negativePriceLedger "OWNER2" = 100000 ∧
      balance negativePriceLedger "OWNER1" = 80000 ∧
      (TransferOwnership (Ctx.start negativePriceLedger noFailure) "CAR7" "OWNER2" true).2 =
        none ∧
      balance (after (TransferOwnership (Ctx.start negativePriceLedger noFailure) "CAR7" "OWNER2"
        true)) "OWNER2" = 100500 ∧
      balance (after (TransferOwnership (Ctx.start negativePriceLedger noFailure) "CAR7" "OWNER2"
        true)) "OWNER1" = 79500) :=
  ⟨⟨overdamagedLedger, "CAR1", "OWNER2",
      ⟨1, "Toyota", "Prius", "blue", "1", [⟨"Bad engine", 1000⟩], 500⟩,
      ⟨2, "Nikola", "Kajtes", "nikolakajtes@gmail.com", 100000⟩,
      ⟨1, "Marko", "Markovic", "markonikolic@gmail.com", 80000⟩,
      by decide⟩,
    Committed_create Committed_seeded "CAR7" "Fiat" "Uno" "red" "1" (float64.round (-500) 0)
      (by decide),
    ⟨⟨0, "Fiat", "Uno", "red", "1", [], (float64.round (-500) 0).toAmount⟩, by decide⟩,
    by decide⟩

/-- C19 (`ChangeCarColor` is idempotent), amended.  When `carId` is a simple key
and `ChangeCarColor(carId, color)` returns no error, the same call on the world
state it leaves returns no error as well and leaves every key with the value
the first call left. -/
theorem change_colour_twice (s : Store) (f : Key → Bool) (carId : Key) (color : String)
    (hsimple : simpleKey carId = true)
    (hok : (ChangeCarColor (Ctx.start s f) carId color).2 = none) :
    (ChangeCarColor (Ctx.start (after (ChangeCarColor (Ctx.start s f) carId color)) f)
        carId color).2 = none ∧
      ∀ k, (after (ChangeCarColor
            (Ctx.start (after (ChangeCarColor (Ctx.start s f) carId color)) f) carId color)).get k =
        (after (ChangeCarColor (Ctx.start s f) carId color)).get k := by
  obtain ⟨v, newKey, hs, hnew, hC⟩ := ChangeCarColor_ok_inv _ _ _ (fun _ => rfl) hok
  have hf : f carId = false := (GetState_ledger hs).1
  have h1 : carId ≠ newKey := simpleKey_ne_composite hsimple hnew
  have h2 : carId ≠ keyOrEmpty (CreateCompositeKey indexName
      [(unmarshalCar v).1.Color, (unmarshalCar v).1.Owner, Itoa (unmarshalCar v).1.Id]) :=
    simpleKey_ne_keyOrEmpty hsimple
  rw [hC]
  simp only [after, Ctx.start]
  have hget1 : ((((s.put carId (Value.car { (unmarshalCar v).1 with Color := color })).del
      (keyOrEmpty (CreateCompositeKey indexName
        [(unmarshalCar v).1.Color, (unmarshalCar v).1.Owner,
          Itoa (unmarshalCar v).1.Id]))).put newKey value).get carId) =
      some (Value.car { (unmarshalCar v).1 with Color := color }) := by
    simp only [Store.get_put, Store.get_del, h1, h2, if_false, if_true]
  have hst : GetState
      ⟨(((s.put carId (Value.car { (unmarshalCar v).1 with Color := color })).del
        (keyOrEmpty (CreateCompositeKey indexName
          [(unmarshalCar v).1.Color, (unmarshalCar v).1.Owner,
            Itoa (unmarshalCar v).1.Id]))).put newKey value), f,
        (((s.put carId (Value.car { (unmarshalCar v).1 with Color := color })).del
        (keyOrEmpty (CreateCompositeKey indexName
          [(unmarshalCar v).1.Color, (unmarshalCar v).1.Owner,
            Itoa (unmarshalCar v).1.Id]))).put newKey value), fun _ => false⟩ carId =
      .ok (some (Value.car { (unmarshalCar v).1 with Color := color })) := by
    simp only [GetState, hf, hget1]
    rfl
  have hC2 := ChangeCarColor_world _ carId color
    { (unmarshalCar v).1 with Color := color } newKey newKey hst hnew hnew
    (simpleKey_ne_empty hsimple) rfl rfl rfl
  rw [hC2]
  refine ⟨rfl, ?_⟩
  intro k
  simp only [Store.get_put, Store.get_del, value]
  by_cases e1 : k = newKey
  · simp [e1]
  · by_cases e2 : k = carId
    · simp [e1, e2, h1, h2]
    · simp [e1, e2]

/-- C19, amended, at an instance: after `InitLedger`, `ChangeCarColor("CAR3",
"red")` twice. -/
theorem change_colour_twice_witness :
    (ChangeCarColor (Ctx.start (after (ChangeCarColor (Ctx.start seeded noFailure) "CAR3" "red"))
        noFailure) "CAR3" "red").2 = none ∧
      ∀ k, (after (ChangeCarColor
            (Ctx.start (after (ChangeCarColor (Ctx.start seeded noFailure) "CAR3" "red"))
              noFailure) "CAR3" "red")).get k =
        (after (ChangeCarColor (Ctx.start seeded noFailure) "CAR3" "red")).get k :=
  change_colour_twice seeded noFailure "CAR3" "red" (by decide) (by decide)

/-- C19 as stated fails.  In `selfIndexedLedger` a blue car with owner "2" and
`Id` 0 is stored under `compositeCarKey`, the composite key of (blue, "2", "0"),
which is its own index key.  `ChangeCarColor(compositeCarKey, "red")` returns no
error: it rewrites the record, then deletes the old index key, that is the
record.  The second `ChangeCarColor(compositeCarKey, "red")` finds no record and
returns an error. -/
theorem change_colour_twice_fails :
    selfIndexedLedger.get compositeCarKey =
        some (Value.car ⟨0, "Fiat", "Uno", "blue", "2", [], 100⟩) ∧
      (ChangeCarColor (Ctx.start selfIndexedLedger noFailure) compositeCarKey "red").2 = none ∧
      (after (ChangeCarColor (Ctx.start selfIndexedLedger noFailure) compositeCarKey "red")).get
          compositeCarKey = none ∧
      (ChangeCarColor
        (Ctx.start
          (after (ChangeCarColor (Ctx.start selfIndexedLedger noFailure) compositeCarKey "red"))
          noFailure)
        compositeCarKey "red").2 ≠ none := by
  decide

end Cars
